import Mathlib

/-!
Shallow embedding of the Dynamic Itchy interpreter (lexer, parser, AST
evaluator) used to verify the natural-language specification against the
code.  Sources embedded: src/lexemes.py, src/lexer.py, src/parser.py,
src/ast.py, src/typing.py, src/exceptions.py.

Modelling conventions:
  - Python dictionaries that serve as environments are association lists
    with unique keys; the insertion order of the Python dict is the list
    order (update-in-place keeps the position, a fresh key is appended).
  - Python dict objects are aliased by reference in the source (a closure
    captures the dict object of its declaring environment).  Aliasing is
    modelled by a store: a list of environments indexed by natural-number
    references; evaluation threads the store explicitly.
  - Python floats are modelled as exact rationals.  No claim in scope
    depends on IEEE rounding; the division-by-zero behaviour is exact.
  - Python exceptions are explicit error values: DI errors (subclasses of
    DIBaseException in src/exceptions.py) and host (built-in Python)
    exceptions are distinct constructors, because the source catches host
    exceptions (ValueError, IndexError, ZeroDivisionError) in some places
    and DI errors are never caught.
  - Nonterminating loops and unbounded recursion are modelled with fuel;
    Err.outOfFuel is a modelling artifact, not a behaviour of the code.
  - The modelled fragment omits class declarations, ellipsis splats,
    list-pattern assignment targets and indexed or member assignment
    targets; no claim in CLAIMS scope exercises them.  Where the source
    would dispatch into an omitted branch the model raises Err.notModelled
    so that the omission is visible, never silently wrong.
-/

/-- Error domain.  The DI-prefixed exception classes of src/exceptions.py
are the first group; hostX constructors stand for the Python built-in
exception X raised by host operations inside the evaluator. -/
inductive Err where
  | staticSyntaxError
  | runtimeSyntaxError
  | zeroDivisionError
  | nameError
  | typeError
  | valueError
  | indexError
  | funcArgsCountError
  | hostTypeError
  | hostValueError
  | hostZeroDivisionError
  | hostIndexError
  | hostKeyError
  | outOfFuel
  | notModelled
deriving Repr, DecidableEq

/-- AST node variants of src/ast.py.  The heterogeneous operand list of
OperatorNode is split by operand shape: scalar operators keep the operator
string of the source (dispatch in OperatorNode.evaluate matches on it),
while the call, indexation and member-access operators, whose non-head
operands are groups, get dedicated constructors. -/
inductive Node where
  /-- ScopeNode: a block of instructions. -/
  | scope (instructions : List Node)
  /-- IfElseNode: conditions paired with branch scopes plus an optional
  else scope. -/
  | ifElse (conditions : List Node) (branchScopes : List Node)
      (elseScope : Option Node)
  /-- WhileNode. -/
  | whileLoop (condition : Node) (body : Node)
  /-- AssignmentNode: chain of targets ending in the value expression;
  orders has one Bool per assignment step, true for return-old. -/
  | assignment (chain : List Node) (orders : List Bool)
  /-- OperatorNode with a scalar operator string: or, and, **, ^, &, |. -/
  | operator (op : String) (operands : List Node)
  /-- OperatorNode with operator $func: callee and chained call groups. -/
  | funcCall (callee : Node) (groups : List (List Node))
  /-- OperatorNode with operator $index: primary and chained index
  groups. -/
  | indexation (primary : Node) (groups : List (List Node))
  /-- OperatorNode with operator $attr: primary and attribute names. -/
  | memberAccess (primary : Node) (names : List String)
  /-- ComparisonNode. -/
  | comparison (operators : List String) (operands : List Node)
  /-- LeftPolyOperatorNode. -/
  | leftPoly (operators : List String) (operands : List Node)
  /-- UnaryOperatorNode. -/
  | unary (op : String) (operand : Node)
  /-- FunctionDeclarationNode. -/
  | functionDecl (params : List String) (body : Node)
  /-- NumberNode holding an integer. -/
  | number (n : Int)
  /-- NumberNode holding a float literal (modelled as a rational). -/
  | floatLit (q : ℚ)
  /-- BooleanNode (value already classified as in the source ctor). -/
  | boolean (b : Bool)
  /-- NullNode. -/
  | nullLit
  /-- StringNode. -/
  | stringLit (s : String)
  /-- ListNode. -/
  | listLit (elements : List Node)
  /-- IdentifierNode. -/
  | identifier (name : String)
deriving Repr

/-- Runtime values (TResult of src/typing.py).  A Function value is a
closure: parameter names, the body scope, and the store reference of the
declaring environment dict (the Python closure captures that dict object
by reference; the copy happens at call time in the source). -/
inductive Value where
  | null
  | bool (b : Bool)
  | int (n : Int)
  | float (q : ℚ)
  | str (s : String)
  | list (xs : List Value)
  | closure (params : List String) (body : Node) (envRef : Nat)
deriving Repr

/-- Environment: a Python dict from identifier to value, as an
insertion-ordered association list with unique keys. -/
abbrev Env := List (String × Value)

/-- Store of environment dict objects; a Nat is a dict reference. -/
abbrev Store := List Env

/-- Python dict lookup: first (and on a well-formed dict only) binding. -/
def envGet (e : Env) (k : String) : Option Value :=
  match e.find? (fun kv => kv.1 == k) with
  | some kv => some kv.2
  | none => none

/-- Python dict write: update in place keeps insertion order, a fresh key
is appended at the end. -/
def envSet (e : Env) (k : String) (v : Value) : Env :=
  match e with
  | [] => [(k, v)]
  | kv :: rest =>
    if kv.1 == k then (k, v) :: rest else kv :: envSet rest k v

/-- Key list of the dict, in insertion order. -/
def envKeys (e : Env) : List String := e.map Prod.fst

/-- Dereference a store reference; a dangling reference is an empty dict
(never produced by the evaluator itself). -/
def storeGet (s : Store) (r : Nat) : Env := (s.get? r).getD []

/-- Write back a dict object through its reference. -/
def storeSet (s : Store) (r : Nat) (e : Env) : Store := s.set r e

/-- ListWrapper.getitem of src/typing.py, integer case: the valid index
range of a list of size n is [-n, n-1], a negative index addresses the
list from the end, and anything outside the range raises the host
IndexError (whose message text is not modelled).  The slice case of the
source is not reachable from DI programs and is omitted. -/
def ListWrapper.getitem (content : List Value) (item : Int) : Except Err Value :=
  let size : Int := content.length
  if -size ≤ item ∧ item < size then
    let j : Int := if item < 0 then item + size else item
    pure (content.getD j.toNat Value.null)
  else
    .error .hostIndexError

/-- Python string subscript text[i]: same range rule as lists, the result
is a one-character string, out of range raises host IndexError. -/
def pyStrGetitem (s : String) (item : Int) : Except Err Value :=
  let cs := s.data
  let size : Int := cs.length
  if -size ≤ item ∧ item < size then
    let j : Int := if item < 0 then item + size else item
    pure (Value.str (String.mk [cs.getD j.toNat ' ']))
  else
    .error .hostIndexError

/-- Numeric view of a value as an exact rational (Python numeric tower
restricted to bool, int, float; bool counts as 0 or 1). -/
def asQ : Value → Option ℚ
  | .bool b => some (if b then 1 else 0)
  | .int n => some (n : ℚ)
  | .float q => some q
  | _ => none

/-- Integer view of a value (Python bool and int). -/
def asIntish : Value → Option Int
  | .bool b => some (if b then 1 else 0)
  | .int n => some n
  | _ => none

/-- Code-point comparison of character lists, the Python string order. -/
def charListCompare : List Char → List Char → Ordering
  | [], [] => .eq
  | [], _ :: _ => .lt
  | _ :: _, [] => .gt
  | a :: as, b :: bs =>
    if a.toNat < b.toNat then .lt
    else if b.toNat < a.toNat then .gt
    else charListCompare as bs

/-- Python string repetition s * n (empty for a non-positive count). -/
def strRepeat (s : String) (n : Int) : String :=
  match n with
  | .ofNat m => String.join (List.replicate m s)
  | .negSucc _ => ""

/-- Binary operators dispatched by LeftPolyOperatorNode and the bitwise
and power cases of OperatorNode.evaluate. -/
inductive BinTag where
  | add | sub | mul | div | floordiv | mod | pow | bxor | band | bor | shl | shr
deriving Repr, DecidableEq

/-- Scalar (non-list) cases of the Python binary operators used by the
evaluator; each branch is annotated with the host behaviour it embeds.
Division and modulo by zero raise the host ZeroDivisionError; a negative
shift count raises the host ValueError; everything type-incompatible
raises the host TypeError, exactly as the Python operators do on the
value domain of src/typing.py. -/
def pyBinScalar (tag : BinTag) (a b : Value) : Except Err Value :=
  match tag with
  | .add =>
    match asIntish a, asIntish b with
    | some x, some y => pure (.int (x + y))
    | _, _ =>
      match asQ a, asQ b with
      | some qa, some qb => pure (.float (qa + qb))
      | _, _ =>
        match a, b with
        | .str s, .str t => pure (.str (s ++ t))
        | _, _ => .error .hostTypeError
  | .sub =>
    match asIntish a, asIntish b with
    | some x, some y => pure (.int (x - y))
    | _, _ =>
      match asQ a, asQ b with
      | some qa, some qb => pure (.float (qa - qb))
      | _, _ => .error .hostTypeError
  | .mul =>
    match asIntish a, asIntish b with
    | some x, some y => pure (.int (x * y))
    | _, _ =>
      match asQ a, asQ b with
      | some qa, some qb => pure (.float (qa * qb))
      | _, _ =>
        match a, b with
        | .str s, _ =>
          match asIntish b with
          | some n => pure (.str (strRepeat s n))
          | none => .error .hostTypeError
        | _, .str t =>
          match asIntish a with
          | some n => pure (.str (strRepeat t n))
          | none => .error .hostTypeError
        | _, _ => .error .hostTypeError
  | .div =>
    match asQ a, asQ b with
    | some qa, some qb =>
      if qb = 0 then .error .hostZeroDivisionError else pure (.float (qa / qb))
    | _, _ => .error .hostTypeError
  | .floordiv =>
    match asIntish a, asIntish b with
    | some x, some y =>
      if y = 0 then .error .hostZeroDivisionError else pure (.int (Int.fdiv x y))
    | _, _ =>
      match asQ a, asQ b with
      | some qa, some qb =>
        if qb = 0 then .error .hostZeroDivisionError
        else pure (.float ((⌊qa / qb⌋ : Int) : ℚ))
      | _, _ => .error .hostTypeError
  | .mod =>
    match asIntish a, asIntish b with
    | some x, some y =>
      if y = 0 then .error .hostZeroDivisionError else pure (.int (Int.fmod x y))
    | _, _ =>
      match asQ a, asQ b with
      | some qa, some qb =>
        if qb = 0 then .error .hostZeroDivisionError
        else pure (.float (qa - qb * ((⌊qa / qb⌋ : Int) : ℚ)))
      | _, _ =>
        match a with
        | .str _ => .error .notModelled
        | _ => .error .hostTypeError
  | .pow =>
    match asIntish a, asIntish b with
    | some x, some y =>
      match y with
      | .ofNat m => pure (.int (x ^ m))
      | .negSucc _ =>
        if x = 0 then .error .hostZeroDivisionError
        else pure (.float ((x : ℚ) ^ y))
    | _, _ =>
      match asQ a, asIntish b with
      | some qa, some y =>
        if qa = 0 ∧ y < 0 then .error .hostZeroDivisionError
        else pure (.float (qa ^ y))
      | _, _ =>
        match asQ a, asQ b with
        | some _, some _ => .error .notModelled
        | _, _ => .error .hostTypeError
  | .bxor =>
    match asIntish a, asIntish b with
    | some x, some y => pure (.int (Int.xor x y))
    | _, _ => .error .hostTypeError
  | .band =>
    match asIntish a, asIntish b with
    | some x, some y => pure (.int (Int.land x y))
    | _, _ => .error .hostTypeError
  | .bor =>
    match asIntish a, asIntish b with
    | some x, some y => pure (.int (Int.lor x y))
    | _, _ => .error .hostTypeError
  | .shl =>
    match asIntish a, asIntish b with
    | some x, some y =>
      match y with
      | .ofNat m => pure (.int (x * (2 : Int) ^ m))
      | .negSucc _ => .error .hostValueError
    | _, _ => .error .hostTypeError
  | .shr =>
    match asIntish a, asIntish b with
    | some x, some y =>
      match y with
      | .ofNat m => pure (.int (Int.shiftRight x m))
      | .negSucc _ => .error .hostValueError
    | _, _ => .error .hostTypeError

mutual

/-- Python binary operator on values.  The List × List case embeds the
elementwise dunder methods of ListWrapper (src/typing.py): every one of
them checks the lengths first and raises the host ValueError on mismatch,
and every one of them raises the host TypeError when the right operand is
not a ListWrapper (for the scalar-multiplication branch of mul the source
calls len on the integer first, which itself raises the host TypeError,
so List times Int also fails). -/
def pyBin (tag : BinTag) (a b : Value) : Except Err Value :=
  match a, b with
  | .list xs, .list ys =>
    if xs.length = ys.length then do
      pure (.list (← pyBinList tag xs ys))
    else .error .hostValueError
  | .list _, _ => .error .hostTypeError
  | _, .list _ => .error .hostTypeError
  | _, _ => pyBinScalar tag a b

/-- Elementwise zip of a list binary operation (lengths already equal). -/
def pyBinList (tag : BinTag) : List Value → List Value → Except Err (List Value)
  | a :: as, b :: bs => do
    let v ← pyBin tag a b
    let vs ← pyBinList tag as bs
    pure (v :: vs)
  | _, _ => pure []

end

mutual

/-- Python equality on values (total, never raises): numeric values
compare by value across bool, int and float; strings, lists and null
compare structurally.  Function objects compare by identity in Python;
distinct Function values are never identical, and the model conservatively
makes closure comparison always false (no claim compares functions). -/
def pyEqB (a b : Value) : Bool :=
  match asQ a, asQ b with
  | some qa, some qb => qa = qb
  | _, _ =>
    match a, b with
    | .str s, .str t => s.data == t.data
    | .list xs, .list ys => pyEqBList xs ys
    | .null, .null => true
    | _, _ => false

/-- Elementwise list equality. -/
def pyEqBList : List Value → List Value → Bool
  | [], [] => true
  | a :: as, b :: bs => pyEqB a b && pyEqBList as bs
  | _, _ => false

end

mutual

/-- Python ordering on values: defined for numeric pairs, string pairs
and list pairs (lexicographic, recursing into elements); every other pair
raises the host TypeError, as the Python comparison operators do. -/
def pyCompare (a b : Value) : Except Err Ordering :=
  match asQ a, asQ b with
  | some qa, some qb => pure (compare qa qb)
  | _, _ =>
    match a, b with
    | .str s, .str t => pure (charListCompare s.data t.data)
    | .list xs, .list ys => pyCompareList xs ys
    | _, _ => .error .hostTypeError

/-- Lexicographic list ordering with Python semantics: walk the pairs,
the first non-equal pair decides, a strict prefix is smaller. -/
def pyCompareList : List Value → List Value → Except Err Ordering
  | [], [] => pure .eq
  | [], _ :: _ => pure .lt
  | _ :: _, [] => pure .gt
  | a :: as, b :: bs =>
    if pyEqB a b then pyCompareList as bs
    else pyCompare a b

end

/-- Python truthiness, total on the value domain (bool of the wrappers in
src/typing.py and the host truthiness of the plain values). -/
def pyTruthy : Value → Bool
  | .null => false
  | .bool b => b
  | .int n => n != 0
  | .float q => q != 0
  | .str s => s.data != []
  | .list xs => !xs.isEmpty
  | .closure _ _ _ => true

mutual

/-- Python unary minus: numeric negation, elementwise on lists,
host TypeError otherwise. -/
def pyNeg (a : Value) : Except Err Value :=
  match a with
  | .list xs => do pure (.list (← pyNegList xs))
  | _ =>
    match asIntish a with
    | some x => pure (.int (-x))
    | none =>
      match asQ a with
      | some q => pure (.float (-q))
      | none => .error .hostTypeError

/-- Elementwise negation. -/
def pyNegList : List Value → Except Err (List Value)
  | [] => pure []
  | a :: as => do
    let v ← pyNeg a
    let vs ← pyNegList as
    pure (v :: vs)

end

mutual

/-- Python bitwise complement: minus n minus one on integers,
elementwise on lists, host TypeError otherwise. -/
def pyInvert (a : Value) : Except Err Value :=
  match a with
  | .list xs => do pure (.list (← pyInvertList xs))
  | _ =>
    match asIntish a with
    | some x => pure (.int (-(x + 1)))
    | none => .error .hostTypeError

/-- Elementwise complement. -/
def pyInvertList : List Value → Except Err (List Value)
  | [] => pure []
  | a :: as => do
    let v ← pyInvert a
    let vs ← pyInvertList as
    pure (v :: vs)

end

/-- Python len on the value domain: string length in code points, list
length; everything else raises the host TypeError. -/
def pyLen : Value → Except Err Value
  | .str s => pure (.int s.data.length)
  | .list xs => pure (.int xs.length)
  | _ => .error .hostTypeError

/-- Subscript value[index] as used by OperatorNode.evaluate_indexation:
lists follow ListWrapper.getitem, strings follow the host string
subscript; a non-integer index or a non-subscriptable value raises the
host TypeError. -/
def pyGetitem (v idx : Value) : Except Err Value :=
  match v with
  | .list xs =>
    match asIntish idx with
    | some i => ListWrapper.getitem xs i
    | none => .error .hostTypeError
  | .str s =>
    match asIntish idx with
    | some i => pyStrGetitem s i
    | none => .error .hostTypeError
  | _ => .error .hostTypeError

/-- Bind the call parameters into the copied environment, in order
(the zip in FunctionDeclarationNode.evaluate; lengths already equal). -/
def bindParams : Env → List String → List Value → Env
  | e, [], _ => e
  | e, _, [] => e
  | e, p :: ps, a :: as => bindParams (envSet e p a) ps as

/-- One comparison step of ComparisonNode.evaluate: the if-elif chain
over the operator lexeme.  An operator outside the six keeps the result
of the previous step, exactly as the source if-chain leaves the variable
untouched. -/
def applyCmpOp (op : String) (lhs rhs : Value) (prev : Bool) : Except Err Bool :=
  if op = "<=" then do pure ((← pyCompare lhs rhs) ≠ .gt)
  else if op = ">=" then do pure ((← pyCompare lhs rhs) ≠ .lt)
  else if op = "<" then do pure ((← pyCompare lhs rhs) = .lt)
  else if op = ">" then do pure ((← pyCompare lhs rhs) = .gt)
  else if op = "==" then pure (pyEqB lhs rhs)
  else if op = "!=" then pure (!pyEqB lhs rhs)
  else pure prev

/-- One fold step of LeftPolyOperatorNode.evaluate: the if-elif chain
over the operator lexeme.  The division operators translate the host
ZeroDivisionError into the DI one; the matrix product translates host
TypeError and ValueError into the DI ones (its list-by-list case is not
modelled); the shifts have no handler; an operator outside the table
yields None as in the source (value = None fallthrough). -/
def applyLeftPolyOp (op : String) (lhs rhs : Value) : Except Err Value :=
  if op = "+" then pyBin .add lhs rhs
  else if op = "-" then pyBin .sub lhs rhs
  else if op = "*" then pyBin .mul lhs rhs
  else if op = "/" then
    match pyBin .div lhs rhs with
    | .error .hostZeroDivisionError => .error .zeroDivisionError
    | r => r
  else if op = "//" then
    match pyBin .floordiv lhs rhs with
    | .error .hostZeroDivisionError => .error .zeroDivisionError
    | r => r
  else if op = "%" then
    match pyBin .mod lhs rhs with
    | .error .hostZeroDivisionError => .error .zeroDivisionError
    | r => r
  else if op = "@" then
    match (match lhs, rhs with
           | .list _, .list _ => (.error .notModelled : Except Err Value)
           | _, _ => .error .hostTypeError) with
    | .error .hostTypeError => .error .typeError
    | .error .hostValueError => .error .valueError
    | r => r
  else if op = "<<" then pyBin .shl lhs rhs
  else if op = ">>" then pyBin .shr lhs rhs
  else pure .null

set_option maxHeartbeats 1000000 in
mutual

/-- Tree-walking evaluation of src/ast.py, store-passing.  Arguments:
fuel, node, the store reference of the current environment dict, the
store.  The fuel decreases on every internal call; running out of fuel is
a modelling artifact standing for nontermination. -/
def evalNode : Nat → Node → Nat → Store → Except Err (Value × Store)
  | 0, _, _, _ => .error .outOfFuel
  | f + 1, n, ctx, store =>
    match n with
    | .scope instrs =>
      -- ScopeNode.evaluate with the default flush_variables = True
      evalScope f instrs true ctx store
    | .ifElse conds branches elseScope => evalIf f conds branches elseScope ctx store
    | .whileLoop cond body =>
      -- WhileNode.evaluate, result starts as None
      evalWhile f cond body .null ctx store
    | .assignment chain orders =>
      -- AssignmentNode.evaluate: rhs = chain[-1] (outside the try), then
      -- the right-to-left loop inside try, catching the host ValueError
      -- into DIRuntimeSyntaxError and the host IndexError into
      -- DIIndexError
      match chain.getLast? with
      | none => .error .hostIndexError
      | some rhs =>
        match evalAssignChain f chain.dropLast.reverse orders.reverse (.inl rhs) ctx store with
        | .error .hostValueError => .error .runtimeSyntaxError
        | .error .hostIndexError => .error .indexError
        | r => r
    | .operator op operands =>
      -- OperatorNode.evaluate dispatch on the operator string; the match
      -- of the source has no default case and returns None
      if op = "or" then evalOrChain f operands ctx store
      else if op = "and" then evalAndChain f operands operands ctx store
      else if op = "**" then
        match operands.getLast? with
        | none => .error .hostIndexError
        | some last => do
          let (v, s1) ← evalNode f last ctx store
          evalPowChain f operands.dropLast.reverse v ctx s1
      else if op = "^" then
        match operands with
        | [] => .error .hostIndexError
        | x :: rest => do
          let (v, s1) ← evalNode f x ctx store
          evalFoldChain f .bxor v rest ctx s1
      else if op = "&" then
        match operands with
        | [] => .error .hostIndexError
        | x :: rest => do
          let (v, s1) ← evalNode f x ctx store
          evalFoldChain f .band v rest ctx s1
      else if op = "|" then
        match operands with
        | [] => .error .hostIndexError
        | x :: rest => do
          let (v, s1) ← evalNode f x ctx store
          evalFoldChain f .bor v rest ctx s1
      else pure (.null, store)
    | .funcCall callee groups => do
      -- OperatorNode.evaluate_func_call
      let (v, s1) ← evalNode f callee ctx store
      evalCallGroups f v groups ctx s1
    | .indexation primary groups => do
      -- OperatorNode.evaluate_indexation: flatten the index groups, walk
      -- them inside a try that maps the host IndexError to DIIndexError
      let (v, s1) ← evalNode f primary ctx store
      match evalIndexChain f v groups.flatten ctx s1 with
      | .error .hostIndexError => .error .indexError
      | r => r
    | .memberAccess primary names => do
      -- OperatorNode.evaluate_member_access: the modelled value domain
      -- has no Dict values (classes are outside the fragment), so every
      -- attribute access raises the host TypeError, which the source
      -- does not catch here (it only catches IndexError)
      let (v, s1) ← evalNode f primary ctx store
      match names with
      | [] => pure (v, s1)
      | _ :: _ => .error .hostTypeError
    | .comparison ops operands =>
      -- ComparisonNode.evaluate: result starts as True
      evalCmpChain f ops operands true ctx store
    | .leftPoly ops operands =>
      -- LeftPolyOperatorNode.evaluate: lhs = operands[0]
      match operands with
      | [] => .error .hostIndexError
      | x :: rest => do
        let (lhs, s1) ← evalNode f x ctx store
        evalLeftPoly f ops rest lhs ctx s1
    | .unary op operand => do
      -- UnaryOperatorNode.evaluate; unary plus returns the operand value
      -- unchanged; an unknown operator raises NotImplemented, which the
      -- host turns into a TypeError
      let (v, s1) ← evalNode f operand ctx store
      if op = "-" then do pure ((← pyNeg v), s1)
      else if op = "+" then pure (v, s1)
      else if op = "~" then do pure ((← pyInvert v), s1)
      else if op = "not" then pure (.bool (!pyTruthy v), s1)
      else if op = "#" then do pure ((← pyLen v), s1)
      else .error .hostTypeError
    | .functionDecl params body =>
      -- FunctionDeclarationNode.evaluate: the returned Function value
      -- closes over the current environment dict object by reference;
      -- the copy of the dict happens at call time (see callClosure)
      pure (.closure params body ctx, store)
    | .number m => pure (.int m, store)
    | .floatLit q => pure (.float q, store)
    | .boolean b => pure (.bool b, store)
    | .nullLit => pure (.null, store)
    | .stringLit s => pure (.str s, store)
    | .listLit elements => do
      -- ListNode.evaluate without the ellipsis branch (outside fragment)
      let (vs, s1) ← evalArgs f elements ctx store
      pure (.list vs, s1)
    | .identifier name =>
      -- IdentifierNode.evaluate
      match envGet (storeGet store ctx) name with
      | some v => pure (v, store)
      | none => .error .nameError

termination_by structural f _ _ _ => f

/-- ScopeNode.evaluate: snapshot the key set, run the instructions, and
when flushing delete every key not in the snapshot.  The source pops each
redundant key from the dict; on a dict the combined effect is keeping the
entries whose key was in the snapshot, in order. -/
def evalScope : Nat → List Node → Bool → Nat → Store → Except Err (Value × Store)
  | 0, _, _, _, _ => .error .outOfFuel
  | f + 1, instrs, flush, ctx, store =>
    let oldKeys := envKeys (storeGet store ctx)
    match evalInstrs f instrs .null ctx store with
    | .error e => .error e
    | .ok (last, s1) =>
      if flush then
        let cur := storeGet s1 ctx
        pure (last, storeSet s1 ctx (cur.filter (fun kv => oldKeys.contains kv.1)))
      else
        pure (last, s1)

termination_by structural f _ _ _ _ => f

/-- Instruction loop of ScopeNode.evaluate: last starts as None and is
overwritten by each instruction value. -/
def evalInstrs : Nat → List Node → Value → Nat → Store → Except Err (Value × Store)
  | 0, _, _, _, _ => .error .outOfFuel
  | _ + 1, [], last, _, store => pure (last, store)
  | f + 1, i :: rest, _, ctx, store =>
    match evalNode f i ctx store with
    | .error e => .error e
    | .ok (v, s1) => evalInstrs f rest v ctx s1

termination_by structural f _ _ _ _ => f

/-- IfElseNode.evaluate: walk condition and branch pairs, evaluate the
first branch whose condition is truthy, fall back to the else scope,
otherwise None. -/
def evalIf : Nat → List Node → List Node → Option Node → Nat → Store → Except Err (Value × Store)
  | 0, _, _, _, _, _ => .error .outOfFuel
  | f + 1, c :: cs, b :: bs, elseScope, ctx, store =>
    match evalNode f c ctx store with
    | .error e => .error e
    | .ok (cv, s1) =>
      if pyTruthy cv then evalNode f b ctx s1
      else evalIf f cs bs elseScope ctx s1
  | f + 1, _, _, some e, ctx, store => evalNode f e ctx store
  | _ + 1, _, _, none, _, store => pure (.null, store)

termination_by structural f _ _ _ _ _ => f

/-- WhileNode.evaluate loop: re-evaluate the condition, run the body
while truthy, and return the last body value (None when the body never
ran). -/
def evalWhile : Nat → Node → Node → Value → Nat → Store → Except Err (Value × Store)
  | 0, _, _, _, _, _ => .error .outOfFuel
  | f + 1, cond, body, result, ctx, store =>
    match evalNode f cond ctx store with
    | .error e => .error e
    | .ok (cv, s1) =>
      if pyTruthy cv then
        match evalNode f body ctx s1 with
        | .error e => .error e
        | .ok (r, s2) => evalWhile f cond body r ctx s2
      else
        pure (result, s1)

termination_by structural f _ _ _ _ _ => f

/-- Right-to-left assignment loop of AssignmentNode.evaluate: the rhs
starts as the unevaluated value expression and becomes the value returned
by each performed assignment.  When the target list is exhausted the
current rhs is returned; the source would return an unevaluated AST node
if the chain had no target at all, which the parser never emits. -/
def evalAssignChain : Nat → List Node → List Bool → (Node ⊕ Value) → Nat → Store → Except Err (Value × Store)
  | 0, _, _, _, _, _ => .error .outOfFuel
  | f + 1, t :: ts, o :: os, rhsv, ctx, store =>
    match performAssignment f t rhsv o ctx store with
    | .error e => .error e
    | .ok (v, s1) => evalAssignChain f ts os (.inr v) ctx s1
  | _ + 1, _, _, .inr v, _, store => pure (v, store)
  | _ + 1, _, _, .inl _, _, _ => .error .notModelled

termination_by structural f _ _ _ _ _ => f

/-- AssignmentNode.perform_assignment restricted to identifier targets
(assign_identifier): evaluate the rhs if it is still an expression, write
the binding, and return the new value, or the previous value (None when
the name was unbound) under the return-old order.  Indexed, member and
list-pattern targets are outside the modelled fragment; any other target
shape raises the host ValueError (cannot assign to expression) as the
final fallback of the source does. -/
def performAssignment : Nat → Node → (Node ⊕ Value) → Bool → Nat → Store → Except Err (Value × Store)
  | 0, _, _, _, _, _ => .error .outOfFuel
  | f + 1, t, rhsv, returnOld, ctx, store =>
    match t with
    | .identifier name =>
      match evalIfNot f rhsv ctx store with
      | .error e => .error e
      | .ok (newValue, s1) =>
        let env := storeGet s1 ctx
        if returnOld then
          pure ((envGet env name).getD .null, storeSet s1 ctx (envSet env name newValue))
        else
          pure (newValue, storeSet s1 ctx (envSet env name newValue))
    | .indexation _ _ => .error .notModelled
    | .memberAccess _ _ => .error .notModelled
    | .listLit _ => .error .notModelled
    | _ => .error .hostValueError

termination_by structural f _ _ _ _ _ => f

/-- AssignmentNode.evaluate_if_not: evaluate an AST node, pass a value
through. -/
def evalIfNot : Nat → (Node ⊕ Value) → Nat → Store → Except Err (Value × Store)
  | 0, _, _, _ => .error .outOfFuel
  | f + 1, .inl n, ctx, store => evalNode f n ctx store
  | _ + 1, .inr v, _, store => pure (v, store)

termination_by structural f _ _ _ => f

/-- OperatorNode.evaluate_or: return the first truthy operand among all
but the last, else the value of the last operand. -/
def evalOrChain : Nat → List Node → Nat → Store → Except Err (Value × Store)
  | 0, _, _, _ => .error .outOfFuel
  | _ + 1, [], _, _ => .error .hostIndexError
  | f + 1, [last], ctx, store => evalNode f last ctx store
  | f + 1, op :: rest, ctx, store =>
    match evalNode f op ctx store with
    | .error e => .error e
    | .ok (r, s1) => if pyTruthy r then pure (r, s1) else evalOrChain f rest ctx s1

termination_by structural f _ _ _ => f

/-- OperatorNode.evaluate_and: the loop of the source runs over all the
operands and returns the first falsy value; when every operand is truthy
the source evaluates the last operand once more and returns that value. -/
def evalAndChain : Nat → List Node → List Node → Nat → Store → Except Err (Value × Store)
  | 0, _, _, _, _ => .error .outOfFuel
  | f + 1, [], all, ctx, store =>
    match all.getLast? with
    | some last => evalNode f last ctx store
    | none => .error .hostIndexError
  | f + 1, op :: rest, all, ctx, store =>
    match evalNode f op ctx store with
    | .error e => .error e
    | .ok (r, s1) => if !pyTruthy r then pure (r, s1) else evalAndChain f rest all ctx s1

termination_by structural f _ _ _ _ => f

/-- OperatorNode.evaluate_power: fold the reversed prefix over the value
of the last operand, right-associatively. -/
def evalPowChain : Nat → List Node → Value → Nat → Store → Except Err (Value × Store)
  | 0, _, _, _, _ => .error .outOfFuel
  | _ + 1, [], acc, _, store => pure (acc, store)
  | f + 1, op :: rest, acc, ctx, store =>
    match evalNode f op ctx store with
    | .error e => .error e
    | .ok (v, s1) =>
      match pyBin .pow v acc with
      | .error e => .error e
      | .ok r => evalPowChain f rest r ctx s1

termination_by structural f _ _ _ _ => f

/-- Left fold of OperatorNode.evaluate_bitwise_xor, _and, _or over the
remaining operands. -/
def evalFoldChain : Nat → BinTag → Value → List Node → Nat → Store → Except Err (Value × Store)
  | 0, _, _, _, _, _ => .error .outOfFuel
  | _ + 1, _, acc, [], _, store => pure (acc, store)
  | f + 1, tag, acc, op :: rest, ctx, store =>
    match evalNode f op ctx store with
    | .error e => .error e
    | .ok (v, s1) =>
      match pyBin tag acc v with
      | .error e => .error e
      | .ok r => evalFoldChain f tag r rest ctx s1

termination_by structural f _ _ _ _ _ => f

/-- Call-group loop of OperatorNode.evaluate_func_call: check
callability (DITypeError otherwise), evaluate the argument group left to
right in the calling environment, then invoke. -/
def evalCallGroups : Nat → Value → List (List Node) → Nat → Store → Except Err (Value × Store)
  | 0, _, _, _, _ => .error .outOfFuel
  | _ + 1, v, [], _, store => pure (v, store)
  | f + 1, v, g :: gs, ctx, store =>
    match v with
    | .closure ps body r =>
      match evalArgs f g ctx store with
      | .error e => .error e
      | .ok (args, s1) =>
        match callClosure f ps body r args s1 with
        | .error e => .error e
        | .ok (rv, s2) => evalCallGroups f rv gs ctx s2
    | _ => .error .typeError

termination_by structural f _ _ _ _ => f

/-- Left-to-right evaluation of an expression list (argument groups and
list literals). -/
def evalArgs : Nat → List Node → Nat → Store → Except Err (List Value × Store)
  | 0, _, _, _ => .error .outOfFuel
  | _ + 1, [], _, store => pure ([], store)
  | f + 1, a :: as, ctx, store =>
    match evalNode f a ctx store with
    | .error e => .error e
    | .ok (v, s1) =>
      match evalArgs f as ctx s1 with
      | .error e => .error e
      | .ok (vs, s2) => pure (v :: vs, s2)

termination_by structural f _ _ _ => f

/-- The inner func of FunctionDeclarationNode.evaluate: copy the captured
environment dict as it stands at call time, bind the parameters
(strict zip: a length mismatch raises the host ValueError), evaluate the
body in the fresh dict, and translate any host ValueError escaping the
binding or the body into DIFunctionArgsCountError, as the
try-except ValueError of the source does. -/
def callClosure : Nat → List String → Node → Nat → List Value → Store → Except Err (Value × Store)
  | 0, _, _, _, _, _ => .error .outOfFuel
  | f + 1, ps, body, envRef, args, store =>
    if ps.length ≠ args.length then .error .funcArgsCountError
    else
      let envCopy := storeGet store envRef
      let newRef := store.length
      match evalNode f body newRef (store ++ [bindParams envCopy ps args]) with
      | .error .hostValueError => .error .funcArgsCountError
      | r => r

termination_by structural f _ _ _ _ _ => f

/-- Pairwise loop of ComparisonNode.evaluate: evaluate the left and the
right operand of every adjacent pair (so an interior operand is evaluated
once as the right operand of one pair and once more as the left operand
of the next pair), apply the operator, and return False at the first
failing pair; the chain value is always a Bool. -/
def evalCmpChain : Nat → List String → List Node → Bool → Nat → Store → Except Err (Value × Store)
  | 0, _, _, _, _, _ => .error .outOfFuel
  | f + 1, op :: ops, a :: b :: rest, result, ctx, store =>
    match evalNode f a ctx store with
    | .error e => .error e
    | .ok (lhs, s1) =>
      match evalNode f b ctx s1 with
      | .error e => .error e
      | .ok (rhs, s2) =>
        match applyCmpOp op lhs rhs result with
        | .error e => .error e
        | .ok r =>
          if !r then pure (.bool false, s2)
          else evalCmpChain f ops (b :: rest) r ctx s2
  | _ + 1, _, _, _, _, store => pure (.bool true, store)

termination_by structural f _ _ _ _ _ => f

/-- Index walk of OperatorNode.evaluate_indexation over the flattened
index expressions. -/
def evalIndexChain : Nat → Value → List Node → Nat → Store → Except Err (Value × Store)
  | 0, _, _, _, _ => .error .outOfFuel
  | _ + 1, v, [], _, store => pure (v, store)
  | f + 1, v, ix :: rest, ctx, store =>
    match evalNode f ix ctx store with
    | .error e => .error e
    | .ok (i, s1) =>
      match pyGetitem v i with
      | .error e => .error e
      | .ok v2 => evalIndexChain f v2 rest ctx s1

termination_by structural f _ _ _ _ => f

/-- Left fold of LeftPolyOperatorNode.evaluate over operator and operand
pairs. -/
def evalLeftPoly : Nat → List String → List Node → Value → Nat → Store → Except Err (Value × Store)
  | 0, _, _, _, _, _ => .error .outOfFuel
  | f + 1, op :: ops, nv :: nvs, lhs, ctx, store =>
    match evalNode f nv ctx store with
    | .error e => .error e
    | .ok (rhs, s1) =>
      match applyLeftPolyOp op lhs rhs with
      | .error e => .error e
      | .ok v => evalLeftPoly f ops nvs v ctx s1
  | _ + 1, _, _, lhs, _, store => pure (lhs, store)

termination_by structural f _ _ _ _ _ => f
end

/-- Token kinds of src/lexemes.py. -/
inductive Lexemes where
  | EMPTY | STRING | NUMBER | FLOAT | INTEGER | BOOLEAN | NULL
  | COMMA | END_LINE
  | OPEN_SQUARE_BRACKET | CLOSED_SQUARE_BRACKET
  | OPEN_BRACKET | CLOSED_BRACKET
  | OPEN_SCOPE | CLOSED_SCOPE
  | OP_ASSIGN | OP_KEYMAP | OP_BITWISE_OR | OP_BITWISE_XOR | OP_BITWISE_AND
  | OP_LOGICAL | OP_COMPARISON | OP_BITWISE_SHIFT | OP_ADDITIVE
  | OP_MULTIPLICATIVE | OP_POWER | OP_BITWISE_NOT | OP_INDEX | OP_COALESCE
  | OP_ATTRIBUTE_ACCESS | OP_ELLIPSIS | OP_IMPLICATION
  | KEYWORD | IDENTIFIER | END_OF_FILE
deriving Repr, DecidableEq

/-- Token payload: the lexeme string, a parsed integer or float, or None
for the end-of-file token.  Source positions are carried by the Python
tokens but only appear in error messages, which are not modelled. -/
inductive TokVal where
  | str (s : String)
  | int (n : Int)
  | float (q : ℚ)
  | none
deriving Repr, DecidableEq

/-- A token: kind and payload. -/
abbrev Token := Lexemes × TokVal

/-- The opening brace character. -/
def scopeOpenChar : Char := Char.ofNat 123

/-- The closing brace character. -/
def scopeCloseChar : Char := Char.ofNat 125

/-- Lexemes.identify_word: classify a scanned word by the reserved
sets. -/
def Lexemes.identifyWord (word : String) : Lexemes :=
  if word ∈ ["if", "else", "elif", "while", "function", "class", "promise"] then .KEYWORD
  else if word ∈ ["and", "or", "not"] then .OP_LOGICAL
  else if word ∈ ["true", "false"] then .BOOLEAN
  else if word = "null" then .NULL
  else .IDENTIFIER

/-- Block-comment skip of Lexer.skip_comments_and_whitespace: advance
until the closing star-backslash and step past it; an unterminated block
comment loops past the end of the text in the source (modelled by fuel
exhaustion). -/
def skipBlockComment : Nat → List Char → Except Err (List Char)
  | 0, _ => .error .outOfFuel
  | _ + 1, '*' :: '\\' :: rest => pure rest
  | f + 1, _ :: rest => skipBlockComment f rest
  | f + 1, [] => skipBlockComment f []
termination_by structural f _ => f

/-- Inline-comment skip: consume up to and including the newline; the
while-else of the source also steps once past the end of the text when
the comment closes the file, which makes the token iterator stop without
emitting an end-of-file token (the Bool flag records that). -/
def skipInlineComment : List Char → (List Char × Bool)
  | [] => ([], true)
  | '\n' :: rest => (rest, false)
  | _ :: rest => skipInlineComment rest

/-- Lexer.skip_comments_and_whitespace: drop block comments, inline
comments and spaces (only the space character; the source treats any
other character, tabs included, as token material). -/
def skipCommentsAndWhitespace : Nat → List Char → Except Err (List Char × Bool)
  | 0, _ => .error .outOfFuel
  | f + 1, cs =>
    match cs with
    | '\\' :: '*' :: rest => do
      let r ← skipBlockComment (f + 1) rest
      skipCommentsAndWhitespace f r
    | '#' :: rest =>
      match skipInlineComment rest with
      | (_, true) => pure ([], true)
      | (r, false) => skipCommentsAndWhitespace f r
    | ' ' :: rest => skipCommentsAndWhitespace f rest
    | _ => pure (cs, false)
termination_by structural f _ => f

/-- Lexer.lex_word: scan letters, underscores and (beyond the first
character) digits; the dispatcher guarantees the first character is a
letter or an underscore, so the plain take-while is the source loop. -/
def lexWord : List Char → Except Err (Token × List Char)
  | [] => .error .staticSyntaxError
  | c :: rest =>
    let tailPart := rest.takeWhile (fun d => d.isAlpha ∨ d = '_' ∨ d.isDigit)
    let name := String.mk (c :: tailPart)
    pure ((Lexemes.identifyWord name, .str name), rest.drop tailPart.length)

/-- String-body scan of Lexer.lex_string: walk until an unescaped quote;
a backslash toggles the escape flag, any other character clears it; a
newline inside the literal is a lex error, and running past the end of
the text indexes out of range in the source (host IndexError). -/
def lexStringScan : List Char → Bool → Except Err (List Char × List Char)
  | [], _ => .error .hostIndexError
  | c :: rest, escaped =>
    if ¬escaped ∧ c = '"' then pure ([], rest)
    else if c = '\n' then .error .staticSyntaxError
    else do
      let escaped1 := if c = '\\' then !escaped else false
      let (content, rest2) ← lexStringScan rest escaped1
      pure (c :: content, rest2)

/-- Lexer.lex_string: the token payload is the raw source slice from the
opening quote to the closing quote inclusive; escape sequences are kept
verbatim (the scan only uses them to decide where the literal ends). -/
def lexString : List Char → Except Err (Token × List Char)
  | '"' :: rest => do
    let (content, rest2) ← lexStringScan rest false
    pure ((.STRING, .str (String.mk ('"' :: (content ++ ['"'])))), rest2)
  | _ => .error .staticSyntaxError

/-- Digit acceptance of the base-specific branches of Lexer.lex_number
(base 16 accepts only the uppercase letters, as the source does). -/
def baseDigit (base : Nat) (c : Char) : Bool :=
  if base = 10 then c.isDigit
  else if base = 8 then ("01234567".toList).contains c
  else if base = 2 then ("01".toList).contains c
  else if base = 4 then ("0123".toList).contains c
  else if base = 16 then c.isDigit ∨ ("ABCDEF".toList).contains c
  else false

mutual

/-- Scanning loop of Lexer.lex_number.  Arguments: fuel, remaining text,
whether the position is still the start of the literal, the detected
base, the float permission and the first-dot flag; returns the consumed
characters, the rest and the final first-dot flag.  The loop guard of the
source is the empty-list case here. -/
def lexNumberLoop : Nat → List Char → Bool → Nat → Bool → Bool → Except Err (List Char × List Char × Bool)
  | 0, _, _, _, _, _ => .error .outOfFuel
  | _ + 1, [], _, _, _, firstDot => pure ([], [], firstDot)
  | f + 1, c :: rest, isStart, base, allowFloat, firstDot =>
    if isStart ∧ c = '0' then
      -- base-prefix detection; the source reads text[right_pos + 1]
      -- without a bound check, so a bare 0 at the end of the text raises
      -- the host IndexError
      match rest with
      | [] => .error .hostIndexError
      | d :: rest2 =>
        if d = 'b' then do
          let (cons, r, fd) ← lexNumberAccept f rest2 2 false firstDot
          pure ('0' :: 'b' :: cons, r, fd)
        else if d = 'x' then do
          let (cons, r, fd) ← lexNumberAccept f rest2 16 false firstDot
          pure ('0' :: 'x' :: cons, r, fd)
        else if d = 'o' then do
          let (cons, r, fd) ← lexNumberAccept f rest2 8 false firstDot
          pure ('0' :: 'o' :: cons, r, fd)
        else if d = 'q' then do
          let (cons, r, fd) ← lexNumberAccept f rest2 4 false firstDot
          pure ('0' :: 'q' :: cons, r, fd)
        else
          lexNumberAccept f (c :: rest) base allowFloat firstDot
    else
      lexNumberAccept f (c :: rest) base allowFloat firstDot

termination_by structural f _ _ _ _ _ => f

/-- Acceptance step of the lex_number iteration (run after the possible
prefix detection, without re-checking the loop guard, exactly as the
source does: after a prefix at the very end of the text the digit test
indexes out of range). -/
def lexNumberAccept : Nat → List Char → Nat → Bool → Bool → Except Err (List Char × List Char × Bool)
  | 0, _, _, _, _ => .error .outOfFuel
  | _ + 1, [], _, _, _ =>
    -- text[right_pos] with right_pos = len: only reachable right after a
    -- base prefix, where the live digit test indexes the text
    .error .hostIndexError
  | f + 1, c :: rest, base, allowFloat, firstDot =>
    if allowFloat then
      if c.isDigit then do
        let (cons, r, fd) ← lexNumberLoop f rest false base allowFloat firstDot
        pure (c :: cons, r, fd)
      else if ¬firstDot ∧ c = '.' then do
        let (cons, r, fd) ← lexNumberLoop f rest false base allowFloat true
        pure (c :: cons, r, fd)
      else if c = 'e' ∨ c = 'E' then
        -- exponent lookahead text[right_pos + 1], unguarded in the source
        match rest with
        | [] => .error .hostIndexError
        | d :: rest2 =>
          if ¬(d.isDigit ∨ d = '+' ∨ d = '-') then pure ([], c :: rest, firstDot)
          else if d = '+' ∨ d = '-' then do
            let (cons, r, fd) ← lexNumberLoop f rest2 false base allowFloat firstDot
            pure (c :: d :: cons, r, fd)
          else do
            let (cons, r, fd) ← lexNumberLoop f rest false base allowFloat firstDot
            pure (c :: cons, r, fd)
      else pure ([], c :: rest, firstDot)
    else
      if baseDigit base c then do
        let (cons, r, fd) ← lexNumberLoop f rest false base allowFloat firstDot
        pure (c :: cons, r, fd)
      else pure ([], c :: rest, firstDot)
termination_by structural f _ _ _ _ => f

end

/-- Value of one digit character (uppercase letters for base 16). -/
def digitValue (c : Char) : Nat :=
  if c.isDigit then c.toNat - '0'.toNat else c.toNat - 'A'.toNat + 10

/-- Digit-string to number in the given base (the int conversion of the
host restricted to what the scanner can produce; an empty digit string
is the ValueError of the host conversion). -/
def charsToNatBase (base : Nat) : List Char → Option Nat
  | [] => none
  | ds =>
    if ds.all (baseDigit base) then
      some (ds.foldl (fun acc c => acc * base + digitValue c) 0)
    else none

/-- Decimal mantissa and optional exponent to an exact rational (the
float conversion of the host on the strings the scanner can produce). -/
def parseFloatQ (cs : List Char) : Option ℚ :=
  let ip := cs.takeWhile Char.isDigit
  let rest := cs.drop ip.length
  match rest with
  | '.' :: rest2 =>
    let fp := rest2.takeWhile Char.isDigit
    let rest3 := rest2.drop fp.length
    if ip = [] ∧ fp = [] then none
    else
      let ipn : ℚ := ((ip.foldl (fun a c => a * 10 + (c.toNat - '0'.toNat)) 0 : Nat) : ℚ)
      let fpn : ℚ := ((fp.foldl (fun a c => a * 10 + (c.toNat - '0'.toNat)) 0 : Nat) : ℚ)
      let mant : ℚ := ipn + fpn / ((10 : ℚ) ^ fp.length)
      match rest3 with
      | [] => some mant
      | e :: rest4 =>
        if e = 'e' ∨ e = 'E' then
          let (sgn, ds) : ℚ × List Char :=
            match rest4 with
            | '+' :: ds => (1, ds)
            | '-' :: ds => (-1, ds)
            | ds => (1, ds)
          if ds ≠ [] ∧ ds.all Char.isDigit then
            let ex : Nat := ds.foldl (fun a c => a * 10 + (c.toNat - '0'.toNat)) 0
            some (mant * (10 : ℚ) ^ ((sgn * ex : ℚ).num))
          else none
        else none
  | _ => none

/-- Conversion tail of Lexer.lex_number: an integer literal goes through
the host int conversion in the detected base (the source strips the 0q
prefix by hand, the host accepts the other prefixes); a failing
conversion is the lex error of the except ValueError branch.  A literal
with a dot goes through the host float conversion. -/
def lexNumberConvert (consumed : List Char) (base : Nat) (firstDot : Bool) : Except Err Token :=
  if ¬firstDot then
    let digits := if base = 10 then consumed else consumed.drop 2
    match charsToNatBase base digits with
    | some n => pure (.INTEGER, .int n)
    | none => .error .staticSyntaxError
  else
    match parseFloatQ consumed with
    | some q => pure (.FLOAT, .float q)
    | none => .error .staticSyntaxError

/-- Lexer.lex_number: scan, then convert. -/
def lexNumber (fuel : Nat) (cs : List Char) : Except Err (Token × List Char) := do
  let (consumed, rest, firstDot) ← lexNumberLoop fuel cs true 10 true false
  let base : Nat :=
    match consumed with
    | '0' :: 'b' :: _ => 2
    | '0' :: 'x' :: _ => 16
    | '0' :: 'o' :: _ => 8
    | '0' :: 'q' :: _ => 4
    | _ => 10
  let tok ← lexNumberConvert consumed base firstDot
  pure (tok, rest)

/-- Lexer.lex_operator, branch for branch in source order.  The branches
for the ampersand, caret, pipe and tilde characters exist in the source
but are dead code: the dispatcher of the token iterator only routes the
characters of its operator set here, and that set does not contain them.
In the shift branch the source builds the lexeme from next_char after
already advancing two positions, so the recorded lexeme is the first
shift character plus the character one past the operator (and when no
such character exists, string concatenation with None raises the host
TypeError). -/
def lexOperator : List Char → Except Err (Token × List Char)
  | [] => .error .staticSyntaxError
  | c :: rest =>
    if c = '+' ∨ c = '-' then pure ((.OP_ADDITIVE, .str (String.mk [c])), rest)
    else if c = '&' then pure ((.OP_BITWISE_AND, .str "&"), rest)
    else if c = '^' then pure ((.OP_BITWISE_XOR, .str "^"), rest)
    else if c = '|' then pure ((.OP_BITWISE_OR, .str "|"), rest)
    else if c = '~' then pure ((.OP_BITWISE_NOT, .str "~"), rest)
    else if c = '*' then
      match rest with
      | '*' :: rest2 => pure ((.OP_POWER, .str "**"), rest2)
      | _ => pure ((.OP_MULTIPLICATIVE, .str "*"), rest)
    else if c = '/' then
      match rest with
      | '/' :: rest2 => pure ((.OP_MULTIPLICATIVE, .str "//"), rest2)
      | _ => pure ((.OP_MULTIPLICATIVE, .str "/"), rest)
    else if c = '%' then pure ((.OP_MULTIPLICATIVE, .str "%"), rest)
    else if c = '@' then pure ((.OP_MULTIPLICATIVE, .str "@"), rest)
    else if c = '<' ∨ c = '>' then
      match rest with
      | '=' :: rest2 => pure ((.OP_COMPARISON, .str (String.mk [c, '='])), rest2)
      | d :: rest2 =>
        if d = c then
          match rest2 with
          | _ :: e :: _ => pure ((.OP_BITWISE_SHIFT, .str (String.mk [c, e])), rest2)
          | _ => .error .hostTypeError
        else pure ((.OP_COMPARISON, .str (String.mk [c])), rest)
      | [] => pure ((.OP_COMPARISON, .str (String.mk [c])), rest)
    else if c = '!' ∧ rest.head? = some '=' then
      pure ((.OP_COMPARISON, .str "!="), rest.drop 1)
    else if c = '=' ∧ rest.head? = some '=' then
      pure ((.OP_COMPARISON, .str "=="), rest.drop 1)
    else if c = ':' ∧ rest.head? = some '=' then
      pure ((.OP_ASSIGN, .str ":="), rest.drop 1)
    else if c = '=' ∧ rest.head? = some '>' then
      pure ((.OP_IMPLICATION, .str "=>"), rest.drop 1)
    else if c = ':' then pure ((.OP_KEYMAP, .str ":"), rest)
    else if c = '?' then pure ((.OP_COALESCE, .str "?"), rest)
    else if c = '.' then
      -- the source advances one position first, then looks for two more
      -- dots (curr and next after the advance)
      match rest with
      | '.' :: '.' :: rest2 => pure ((.OP_ELLIPSIS, .str "..."), rest2)
      | _ => pure ((.OP_ATTRIBUTE_ACCESS, .str "."), rest)
    else .error .staticSyntaxError

/-- Single-token dispatch of the Lexer iterator (the if-elif ladder after
the comment and whitespace skip): single-symbol tokens, digits to the
number scanner, the operator character set (which lacks the ampersand,
caret, pipe and tilde, so those characters fall to the final
unrecognized-symbol error; the hash in the set is dead because the skip
phase consumes it as a comment), words, string literals. -/
def scanOneToken (fuel : Nat) (cs : List Char) : Except Err (Token × List Char) :=
  match cs with
  | [] => .error .staticSyntaxError
  | c :: rest =>
    if c = '(' then pure ((.OPEN_BRACKET, .str "("), rest)
    else if c = ')' then pure ((.CLOSED_BRACKET, .str ")"), rest)
    else if c = '[' then pure ((.OPEN_SQUARE_BRACKET, .str "["), rest)
    else if c = ']' then pure ((.CLOSED_SQUARE_BRACKET, .str "]"), rest)
    else if c = scopeOpenChar then pure ((.OPEN_SCOPE, .str (String.mk [scopeOpenChar])), rest)
    else if c = scopeCloseChar then pure ((.CLOSED_SCOPE, .str (String.mk [scopeCloseChar])), rest)
    else if c = ',' then pure ((.COMMA, .str ","), rest)
    else if c = '\n' ∨ c = ';' then pure ((.END_LINE, .str ";"), rest)
    else if c.isDigit then lexNumber fuel (c :: rest)
    else if (":+-*/%=<>!@#.?".toList).contains c then lexOperator (c :: rest)
    else if c.isAlpha ∨ c = '_' then lexWord (c :: rest)
    else if c = '"' then lexString (c :: rest)
    else .error .staticSyntaxError

/-- The token iterator (Lexer.next consumed to a list by the Parser
constructor): skip comments and whitespace, emit the end-of-file token at
the end of the text (and nothing when a trailing inline comment stepped
past the end), otherwise scan one token and continue. -/
def tokenize : Nat → List Char → Except Err (List Token)
  | 0, _ => .error .outOfFuel
  | f + 1, cs => do
    let (cs1, pastEnd) ← skipCommentsAndWhitespace (f + 1) cs
    if pastEnd then pure []
    else
      match cs1 with
      | [] => pure [(.END_OF_FILE, .none)]
      | c :: rest => do
        let (tok, rest2) ← scanOneToken (f + 1) (c :: rest)
        let ts ← tokenize f rest2
        pure (tok :: ts)
termination_by structural f _ => f

/-- Parser.is_consumable with no expected value: kind match on the
current token. -/
def isConsumable (ts : List Token) (kind : Lexemes) : Bool :=
  match ts with
  | [] => false
  | (k, _) :: _ => k == kind

/-- Parser.is_consumable with an expected lexeme value. -/
def isConsumableV (ts : List Token) (kind : Lexemes) (v : String) : Bool :=
  match ts with
  | [] => false
  | (k, tv) :: _ => k == kind && tv == TokVal.str v

/-- Parser.consume: on a kind mismatch the parser raises its
StaticSyntaxError; when the token stream is already exhausted the error
helper of the source unpacks None and raises the host TypeError. -/
def consume (ts : List Token) (kind : Lexemes) : Except Err (TokVal × List Token) :=
  match ts with
  | [] => .error .hostTypeError
  | (k, v) :: rest => if k = kind then pure (v, rest) else .error .staticSyntaxError

/-- Lexeme text of a payload (the parser reads operator lexemes and
identifier names; those tokens always carry a string payload). -/
def TokVal.asStr : TokVal → String
  | .str s => s
  | _ => ""

/-- The end-of-line skipping loops of parse_expression and the argument
lists. -/
def skipEndLines : List Token → List Token
  | (Lexemes.END_LINE, _) :: rest => skipEndLines rest
  | ts => ts

set_option maxHeartbeats 2000000 in
mutual

/-- Parser.parse_program: expressions until the end-of-file token, which
is then consumed; the result is the root Scope node. -/
def parseProgram : Nat → List Token → Except Err (Node × List Token)
  | 0, _ => .error .outOfFuel
  | f + 1, ts => do
    let (instrs, ts1) ← parseProgramLoop f ts []
    pure (.scope instrs, ts1)

/-- Instruction loop of parse_program. -/
def parseProgramLoop : Nat → List Token → List Node → Except Err (List Node × List Token)
  | 0, _, _ => .error .outOfFuel
  | f + 1, ts, acc =>
    if isConsumable ts .END_OF_FILE then do
      let (_, ts1) ← consume ts .END_OF_FILE
      pure (acc.reverse, ts1)
    else do
      let (e, ts1) ← parseExpression f ts
      parseProgramLoop f ts1 (e :: acc)
termination_by structural f _ _ => f

/-- Parser.parse_expression: end-of-line tokens are skipped on both
sides of one assignment-level expression. -/
def parseExpression : Nat → List Token → Except Err (Node × List Token)
  | 0, _ => .error .outOfFuel
  | f + 1, ts => do
    let (v, ts1) ← parseAssignment f (skipEndLines ts)
    pure (v, skipEndLines ts1)
termination_by structural f _ => f

/-- Parser.parse_assignment: a logical-or operand, then an optional chain
of assignment operators; the orders list records per step whether the
consumed lexeme was the return-old form. -/
def parseAssignment : Nat → List Token → Except Err (Node × List Token)
  | 0, _ => .error .outOfFuel
  | f + 1, ts => do
    let (operand, ts1) ← parseLogicalOr f ts
    if ¬ isConsumable ts1 .OP_ASSIGN then pure (operand, ts1)
    else do
      let ((operands, lasts), ts2) ← parseAssignmentLoop f ts1 [operand] []
      pure (.assignment operands lasts, ts2)
termination_by structural f _ => f

/-- Chain loop of parse_assignment. -/
def parseAssignmentLoop : Nat → List Token → List Node → List Bool → Except Err ((List Node × List Bool) × List Token)
  | 0, _, _, _ => .error .outOfFuel
  | f + 1, ts, operands, lasts =>
    if isConsumable ts .OP_ASSIGN then do
      let (v, ts1) ← consume ts .OP_ASSIGN
      let (e, ts2) ← parseLogicalOr f ts1
      parseAssignmentLoop f ts2 (e :: operands) ((TokVal.asStr v == "=:") :: lasts)
    else pure ((operands.reverse, lasts.reverse), ts)
termination_by structural f _ _ _ => f

/-- Parser.parse_logical_or. -/
def parseLogicalOr : Nat → List Token → Except Err (Node × List Token)
  | 0, _ => .error .outOfFuel
  | f + 1, ts => do
    let (left, ts1) ← parseLogicalAnd f ts
    if ¬ isConsumableV ts1 .OP_LOGICAL "or" then pure (left, ts1)
    else do
      let (ops, ts2) ← parseLogicalOrLoop f ts1 [left]
      pure (.operator "or" ops, ts2)
termination_by structural f _ => f

/-- Chain loop of parse_logical_or. -/
def parseLogicalOrLoop : Nat → List Token → List Node → Except Err (List Node × List Token)
  | 0, _, _ => .error .outOfFuel
  | f + 1, ts, acc =>
    if isConsumableV ts .OP_LOGICAL "or" then do
      let (_, ts1) ← consume ts .OP_LOGICAL
      let (e, ts2) ← parseLogicalAnd f ts1
      parseLogicalOrLoop f ts2 (e :: acc)
    else pure (acc.reverse, ts)
termination_by structural f _ _ => f

/-- Parser.parse_logical_and. -/
def parseLogicalAnd : Nat → List Token → Except Err (Node × List Token)
  | 0, _ => .error .outOfFuel
  | f + 1, ts => do
    let (left, ts1) ← parseLogicalNot f ts
    if ¬ isConsumableV ts1 .OP_LOGICAL "and" then pure (left, ts1)
    else do
      let (ops, ts2) ← parseLogicalAndLoop f ts1 [left]
      pure (.operator "and" ops, ts2)
termination_by structural f _ => f

/-- Chain loop of parse_logical_and. -/
def parseLogicalAndLoop : Nat → List Token → List Node → Except Err (List Node × List Token)
  | 0, _, _ => .error .outOfFuel
  | f + 1, ts, acc =>
    if isConsumableV ts .OP_LOGICAL "and" then do
      let (_, ts1) ← consume ts .OP_LOGICAL
      let (e, ts2) ← parseLogicalNot f ts1
      parseLogicalAndLoop f ts2 (e :: acc)
    else pure (acc.reverse, ts)
termination_by structural f _ _ => f

/-- Parser.parse_logical_not. -/
def parseLogicalNot : Nat → List Token → Except Err (Node × List Token)
  | 0, _ => .error .outOfFuel
  | f + 1, ts =>
    if isConsumableV ts .OP_LOGICAL "not" then do
      let (_, ts1) ← consume ts .OP_LOGICAL
      let (e, ts2) ← parseComparison f ts1
      pure (.unary "not" e, ts2)
    else parseComparison f ts
termination_by structural f _ => f

/-- Parser.parse_comparison. -/
def parseComparison : Nat → List Token → Except Err (Node × List Token)
  | 0, _ => .error .outOfFuel
  | f + 1, ts => do
    let (operand, ts1) ← parseBitwiseOr f ts
    if ¬ isConsumable ts1 .OP_COMPARISON then pure (operand, ts1)
    else do
      let ((operators, operands), ts2) ← parseComparisonLoop f ts1 [] [operand]
      pure (.comparison operators operands, ts2)
termination_by structural f _ => f

/-- Chain loop of parse_comparison. -/
def parseComparisonLoop : Nat → List Token → List String → List Node → Except Err ((List String × List Node) × List Token)
  | 0, _, _, _ => .error .outOfFuel
  | f + 1, ts, operators, operands =>
    if isConsumable ts .OP_COMPARISON then do
      let (v, ts1) ← consume ts .OP_COMPARISON
      let (e, ts2) ← parseBitwiseOr f ts1
      parseComparisonLoop f ts2 (TokVal.asStr v :: operators) (e :: operands)
    else pure ((operators.reverse, operands.reverse), ts)
termination_by structural f _ _ _ => f

/-- Parser.parse_bitwise_or: emits an OperatorNode with the pipe
operator. -/
def parseBitwiseOr : Nat → List Token → Except Err (Node × List Token)
  | 0, _ => .error .outOfFuel
  | f + 1, ts => do
    let (operand, ts1) ← parseBitwiseXor f ts
    if ¬ isConsumable ts1 .OP_BITWISE_OR then pure (operand, ts1)
    else do
      let (ops, ts2) ← parseBitwiseOrLoop f ts1 [operand]
      pure (.operator "|" ops, ts2)
termination_by structural f _ => f

/-- Chain loop of parse_bitwise_or. -/
def parseBitwiseOrLoop : Nat → List Token → List Node → Except Err (List Node × List Token)
  | 0, _, _ => .error .outOfFuel
  | f + 1, ts, acc =>
    if isConsumable ts .OP_BITWISE_OR then do
      let (_, ts1) ← consume ts .OP_BITWISE_OR
      let (e, ts2) ← parseBitwiseXor f ts1
      parseBitwiseOrLoop f ts2 (e :: acc)
    else pure (acc.reverse, ts)
termination_by structural f _ _ => f

/-- Parser.parse_bitwise_xor. -/
def parseBitwiseXor : Nat → List Token → Except Err (Node × List Token)
  | 0, _ => .error .outOfFuel
  | f + 1, ts => do
    let (operand, ts1) ← parseBitwiseAnd f ts
    if ¬ isConsumable ts1 .OP_BITWISE_XOR then pure (operand, ts1)
    else do
      let (ops, ts2) ← parseBitwiseXorLoop f ts1 [operand]
      pure (.operator "^" ops, ts2)
termination_by structural f _ => f

/-- Chain loop of parse_bitwise_xor. -/
def parseBitwiseXorLoop : Nat → List Token → List Node → Except Err (List Node × List Token)
  | 0, _, _ => .error .outOfFuel
  | f + 1, ts, acc =>
    if isConsumable ts .OP_BITWISE_XOR then do
      let (_, ts1) ← consume ts .OP_BITWISE_XOR
      let (e, ts2) ← parseBitwiseAnd f ts1
      parseBitwiseXorLoop f ts2 (e :: acc)
    else pure (acc.reverse, ts)
termination_by structural f _ _ => f

/-- Parser.parse_bitwise_and: the source emits an OperatorNode carrying
the pipe operator in this code path as well (line 202 of src/parser.py),
so an and-chain would evaluate as a bitwise or; the lexeme emission is
transcribed verbatim. -/
def parseBitwiseAnd : Nat → List Token → Except Err (Node × List Token)
  | 0, _ => .error .outOfFuel
  | f + 1, ts => do
    let (operand, ts1) ← parseBitwiseShifts f ts
    if ¬ isConsumable ts1 .OP_BITWISE_AND then pure (operand, ts1)
    else do
      let (ops, ts2) ← parseBitwiseAndLoop f ts1 [operand]
      pure (.operator "|" ops, ts2)
termination_by structural f _ => f

/-- Chain loop of parse_bitwise_and. -/
def parseBitwiseAndLoop : Nat → List Token → List Node → Except Err (List Node × List Token)
  | 0, _, _ => .error .outOfFuel
  | f + 1, ts, acc =>
    if isConsumable ts .OP_BITWISE_AND then do
      let (_, ts1) ← consume ts .OP_BITWISE_AND
      let (e, ts2) ← parseBitwiseShifts f ts1
      parseBitwiseAndLoop f ts2 (e :: acc)
    else pure (acc.reverse, ts)
termination_by structural f _ _ => f

/-- Parser.parse_bitwise_shifts. -/
def parseBitwiseShifts : Nat → List Token → Except Err (Node × List Token)
  | 0, _ => .error .outOfFuel
  | f + 1, ts => do
    let (operand, ts1) ← parseAdditive f ts
    if ¬ isConsumable ts1 .OP_BITWISE_SHIFT then pure (operand, ts1)
    else do
      let ((operators, operands), ts2) ← parseBitwiseShiftsLoop f ts1 [] [operand]
      pure (.leftPoly operators operands, ts2)
termination_by structural f _ => f

/-- Chain loop of parse_bitwise_shifts. -/
def parseBitwiseShiftsLoop : Nat → List Token → List String → List Node → Except Err ((List String × List Node) × List Token)
  | 0, _, _, _ => .error .outOfFuel
  | f + 1, ts, operators, operands =>
    if isConsumable ts .OP_BITWISE_SHIFT then do
      let (v, ts1) ← consume ts .OP_BITWISE_SHIFT
      let (e, ts2) ← parseAdditive f ts1
      parseBitwiseShiftsLoop f ts2 (TokVal.asStr v :: operators) (e :: operands)
    else pure ((operators.reverse, operands.reverse), ts)
termination_by structural f _ _ _ => f

/-- Parser.parse_additive. -/
def parseAdditive : Nat → List Token → Except Err (Node × List Token)
  | 0, _ => .error .outOfFuel
  | f + 1, ts => do
    let (operand, ts1) ← parseMultiplicative f ts
    if ¬ isConsumable ts1 .OP_ADDITIVE then pure (operand, ts1)
    else do
      let ((operators, operands), ts2) ← parseAdditiveLoop f ts1 [] [operand]
      pure (.leftPoly operators operands, ts2)
termination_by structural f _ => f

/-- Chain loop of parse_additive. -/
def parseAdditiveLoop : Nat → List Token → List String → List Node → Except Err ((List String × List Node) × List Token)
  | 0, _, _, _ => .error .outOfFuel
  | f + 1, ts, operators, operands =>
    if isConsumable ts .OP_ADDITIVE then do
      let (v, ts1) ← consume ts .OP_ADDITIVE
      let (e, ts2) ← parseMultiplicative f ts1
      parseAdditiveLoop f ts2 (TokVal.asStr v :: operators) (e :: operands)
    else pure ((operators.reverse, operands.reverse), ts)
termination_by structural f _ _ _ => f

/-- Parser.parse_multiplicative. -/
def parseMultiplicative : Nat → List Token → Except Err (Node × List Token)
  | 0, _ => .error .outOfFuel
  | f + 1, ts => do
    let (operand, ts1) ← parsePower f ts
    if ¬ isConsumable ts1 .OP_MULTIPLICATIVE then pure (operand, ts1)
    else do
      let ((operators, operands), ts2) ← parseMultiplicativeLoop f ts1 [] [operand]
      pure (.leftPoly operators operands, ts2)
termination_by structural f _ => f

/-- Chain loop of parse_multiplicative. -/
def parseMultiplicativeLoop : Nat → List Token → List String → List Node → Except Err ((List String × List Node) × List Token)
  | 0, _, _, _ => .error .outOfFuel
  | f + 1, ts, operators, operands =>
    if isConsumable ts .OP_MULTIPLICATIVE then do
      let (v, ts1) ← consume ts .OP_MULTIPLICATIVE
      let (e, ts2) ← parsePower f ts1
      parseMultiplicativeLoop f ts2 (TokVal.asStr v :: operators) (e :: operands)
    else pure ((operators.reverse, operands.reverse), ts)
termination_by structural f _ _ _ => f

/-- Parser.parse_power. -/
def parsePower : Nat → List Token → Except Err (Node × List Token)
  | 0, _ => .error .outOfFuel
  | f + 1, ts => do
    let (operand, ts1) ← parseUnary f ts
    if ¬ isConsumable ts1 .OP_POWER then pure (operand, ts1)
    else do
      let (ops, ts2) ← parsePowerLoop f ts1 [operand]
      pure (.operator "**" ops, ts2)
termination_by structural f _ => f

/-- Chain loop of parse_power. -/
def parsePowerLoop : Nat → List Token → List Node → Except Err (List Node × List Token)
  | 0, _, _ => .error .outOfFuel
  | f + 1, ts, acc =>
    if isConsumable ts .OP_POWER then do
      let (_, ts1) ← consume ts .OP_POWER
      let (e, ts2) ← parseUnary f ts1
      parsePowerLoop f ts2 (e :: acc)
    else pure (acc.reverse, ts)
termination_by structural f _ _ => f

/-- Parser.parse_unary: additive and index unary operators (the lexer
never emits an OP_INDEX token, the branch is dead code kept from the
source); the ellipsis branch builds an EllipsisOperatorNode, which is
outside the modelled fragment. -/
def parseUnary : Nat → List Token → Except Err (Node × List Token)
  | 0, _ => .error .outOfFuel
  | f + 1, ts =>
    if isConsumable ts .OP_ADDITIVE then do
      let (v, ts1) ← consume ts .OP_ADDITIVE
      let (e, ts2) ← parseFunctionCall f ts1
      pure (.unary (TokVal.asStr v) e, ts2)
    else if isConsumable ts .OP_INDEX then do
      let (v, ts1) ← consume ts .OP_INDEX
      let (e, ts2) ← parseFunctionCall f ts1
      pure (.unary (TokVal.asStr v) e, ts2)
    else if isConsumable ts .OP_ELLIPSIS then
      .error .notModelled
    else parseFunctionCall f ts
termination_by structural f _ => f

/-- Comma-separated expression list of _parse_comma_separated_args and
parse_list, after the opening token has been consumed: expressions until
the closing token, separated by commas with end-of-line skipping, and
the closing token is consumed. -/
def parseArgsLoop : Nat → List Token → Lexemes → List Node → Except Err (List Node × List Token)
  | 0, _, _, _ => .error .outOfFuel
  | f + 1, ts, closing, acc =>
    if isConsumable ts closing then do
      let (_, ts1) ← consume ts closing
      pure (acc.reverse, ts1)
    else do
      let (e, ts1) ← parseExpression f ts
      if isConsumable ts1 closing then do
        let (_, ts2) ← consume ts1 closing
        pure ((e :: acc).reverse, ts2)
      else do
        let (_, ts2) ← consume ts1 .COMMA
        parseArgsLoop f (skipEndLines ts2) closing (e :: acc)
termination_by structural f _ _ _ => f

/-- Parser.parse_function_call: chained call groups over one primary. -/
def parseFunctionCall : Nat → List Token → Except Err (Node × List Token)
  | 0, _ => .error .outOfFuel
  | f + 1, ts => do
    let (operand, ts1) ← parseIndexation f ts
    if ¬ isConsumable ts1 .OPEN_BRACKET then pure (operand, ts1)
    else do
      let (groups, ts2) ← parseFunctionCallLoop f ts1 []
      pure (.funcCall operand groups, ts2)
termination_by structural f _ => f

/-- Call-group loop of parse_function_call. -/
def parseFunctionCallLoop : Nat → List Token → List (List Node) → Except Err (List (List Node) × List Token)
  | 0, _, _ => .error .outOfFuel
  | f + 1, ts, acc =>
    if isConsumable ts .OPEN_BRACKET then do
      let (_, ts1) ← consume ts .OPEN_BRACKET
      let (g, ts2) ← parseArgsLoop f ts1 .CLOSED_BRACKET []
      parseFunctionCallLoop f ts2 (g :: acc)
    else pure (acc.reverse, ts)
termination_by structural f _ _ => f

/-- Parser.parse_indexation: chained index groups over one primary. -/
def parseIndexation : Nat → List Token → Except Err (Node × List Token)
  | 0, _ => .error .outOfFuel
  | f + 1, ts => do
    let (operand, ts1) ← parseMemberAccess f ts
    if ¬ isConsumable ts1 .OPEN_SQUARE_BRACKET then pure (operand, ts1)
    else do
      let (groups, ts2) ← parseIndexationLoop f ts1 []
      pure (.indexation operand groups, ts2)
termination_by structural f _ => f

/-- Index-group loop of parse_indexation. -/
def parseIndexationLoop : Nat → List Token → List (List Node) → Except Err (List (List Node) × List Token)
  | 0, _, _ => .error .outOfFuel
  | f + 1, ts, acc =>
    if isConsumable ts .OPEN_SQUARE_BRACKET then do
      let (_, ts1) ← consume ts .OPEN_SQUARE_BRACKET
      let (g, ts2) ← parseArgsLoop f ts1 .CLOSED_SQUARE_BRACKET []
      parseIndexationLoop f ts2 (g :: acc)
    else pure (acc.reverse, ts)
termination_by structural f _ _ => f

/-- Parser.parse_member_access: a primary and a chain of attribute
names. -/
def parseMemberAccess : Nat → List Token → Except Err (Node × List Token)
  | 0, _ => .error .outOfFuel
  | f + 1, ts => do
    let (operand, ts1) ← parsePrimary f ts
    if ¬ isConsumable ts1 .OP_ATTRIBUTE_ACCESS then pure (operand, ts1)
    else do
      let (names, ts2) ← parseMemberAccessLoop f ts1 []
      pure (.memberAccess operand names, ts2)
termination_by structural f _ => f

/-- Attribute loop of parse_member_access. -/
def parseMemberAccessLoop : Nat → List Token → List String → Except Err (List String × List Token)
  | 0, _, _ => .error .outOfFuel
  | f + 1, ts, acc =>
    if isConsumable ts .OP_ATTRIBUTE_ACCESS then do
      let (_, ts1) ← consume ts .OP_ATTRIBUTE_ACCESS
      let (v, ts2) ← consume ts1 .IDENTIFIER
      parseMemberAccessLoop f ts2 (TokVal.asStr v :: acc)
    else pure (acc.reverse, ts)
termination_by structural f _ _ => f

/-- Parser.parse_primary.  The BOOLEAN branch of the source guards on a
BOOLEAN current token but then calls consume with the NUMBER kind
(src/parser.py line 362), so the consume always fails with the
StaticSyntaxError of the kind mismatch and the BooleanNode construction
after it is dead code (transcribed nonetheless).  The class branch
builds a ClassDeclarationNode, which is outside the modelled
fragment. -/
def parsePrimary : Nat → List Token → Except Err (Node × List Token)
  | 0, _ => .error .outOfFuel
  | f + 1, ts =>
    if isConsumable ts .INTEGER then do
      let (v, ts1) ← consume ts .INTEGER
      match v with
      | .int n => pure (.number n, ts1)
      | _ => .error .notModelled
    else if isConsumable ts .FLOAT then do
      let (v, ts1) ← consume ts .FLOAT
      match v with
      | .float q => pure (.floatLit q, ts1)
      | _ => .error .notModelled
    else if isConsumable ts .STRING then do
      let (v, ts1) ← consume ts .STRING
      pure (.stringLit (TokVal.asStr v), ts1)
    else if isConsumable ts .BOOLEAN then do
      let (v, ts1) ← consume ts .NUMBER
      match v with
      | .str "true" => pure (.boolean true, ts1)
      | .str "false" => pure (.boolean false, ts1)
      | _ => .error .notModelled
    else if isConsumable ts .NULL then do
      let (_, ts1) ← consume ts .NULL
      pure (.nullLit, ts1)
    else if isConsumable ts .OPEN_SQUARE_BRACKET then
      parseList f ts
    else if isConsumable ts .OPEN_BRACKET then do
      let (_, ts1) ← consume ts .OPEN_BRACKET
      let (e, ts2) ← parseExpression f ts1
      let (_, ts3) ← consume ts2 .CLOSED_BRACKET
      pure (e, ts3)
    else if isConsumable ts .IDENTIFIER then do
      let (v, ts1) ← consume ts .IDENTIFIER
      pure (.identifier (TokVal.asStr v), ts1)
    else if isConsumable ts .OPEN_SCOPE then
      parseScope f ts
    else if isConsumableV ts .KEYWORD "if" then
      parseIf f ts
    else if isConsumableV ts .KEYWORD "while" then
      parseWhile f ts
    else if isConsumableV ts .KEYWORD "function" then
      parseFunction f ts
    else if isConsumableV ts .KEYWORD "class" then
      .error .notModelled
    else .error .staticSyntaxError
termination_by structural f _ => f

/-- Parser.parse_list: same loop shape as the comma-separated argument
lists, over square brackets. -/
def parseList : Nat → List Token → Except Err (Node × List Token)
  | 0, _ => .error .outOfFuel
  | f + 1, ts => do
    let (_, ts1) ← consume ts .OPEN_SQUARE_BRACKET
    let (elems, ts2) ← parseArgsLoop f ts1 .CLOSED_SQUARE_BRACKET []
    pure (.listLit elems, ts2)
termination_by structural f _ => f

/-- Parser.parse_scope: either a brace-delimited block of expressions or
a single expression wrapped into a one-instruction Scope node. -/
def parseScope : Nat → List Token → Except Err (Node × List Token)
  | 0, _ => .error .outOfFuel
  | f + 1, ts =>
    if ¬ isConsumable ts .OPEN_SCOPE then do
      let (instruction, ts1) ← parseExpression f ts
      pure (.scope [instruction], ts1)
    else do
      let (_, ts1) ← consume ts .OPEN_SCOPE
      let (instrs, ts2) ← parseScopeLoop f ts1 []
      pure (.scope instrs, ts2)
termination_by structural f _ => f

/-- Block loop of parse_scope (the closing brace is consumed here). -/
def parseScopeLoop : Nat → List Token → List Node → Except Err (List Node × List Token)
  | 0, _, _ => .error .outOfFuel
  | f + 1, ts, acc =>
    if isConsumable ts .CLOSED_SCOPE then do
      let (_, ts1) ← consume ts .CLOSED_SCOPE
      pure (acc.reverse, ts1)
    else do
      let (e, ts1) ← parseExpression f ts
      parseScopeLoop f ts1 (e :: acc)
termination_by structural f _ _ => f

/-- Parser.parse_if: the first branch, elif branches, and an optional
else scope. -/
def parseIf : Nat → List Token → Except Err (Node × List Token)
  | 0, _ => .error .outOfFuel
  | f + 1, ts => do
    let (_, ts1) ← consume ts .KEYWORD
    let (c, ts2) ← parseCondition f ts1
    let (s, ts3) ← parseScope f ts2
    let ((conds, branches, elseScope), ts4) ← parseIfLoop f ts3 [c] [s]
    pure (.ifElse conds branches elseScope, ts4)
termination_by structural f _ => f

/-- Elif and else loop of parse_if. -/
def parseIfLoop : Nat → List Token → List Node → List Node → Except Err ((List Node × List Node × Option Node) × List Token)
  | 0, _, _, _ => .error .outOfFuel
  | f + 1, ts, conds, branches =>
    if isConsumableV ts .KEYWORD "elif" then do
      let (_, ts1) ← consume ts .KEYWORD
      let (c, ts2) ← parseCondition f ts1
      let (s, ts3) ← parseScope f ts2
      parseIfLoop f ts3 (c :: conds) (s :: branches)
    else if isConsumableV ts .KEYWORD "else" then do
      let (_, ts1) ← consume ts .KEYWORD
      let (s, ts2) ← parseScope f ts1
      pure ((conds.reverse, branches.reverse, some s), ts2)
    else pure ((conds.reverse, branches.reverse, none), ts)
termination_by structural f _ _ _ => f

/-- Parser.parse_while. -/
def parseWhile : Nat → List Token → Except Err (Node × List Token)
  | 0, _ => .error .outOfFuel
  | f + 1, ts => do
    let (_, ts1) ← consume ts .KEYWORD
    let (c, ts2) ← parseCondition f ts1
    let (s, ts3) ← parseScope f ts2
    pure (.whileLoop c s, ts3)
termination_by structural f _ => f

/-- Parser.parse_function: keyword, parenthesised parameter names, body
scope. -/
def parseFunction : Nat → List Token → Except Err (Node × List Token)
  | 0, _ => .error .outOfFuel
  | f + 1, ts => do
    let (_, ts1) ← consume ts .KEYWORD
    let (_, ts2) ← consume ts1 .OPEN_BRACKET
    let (params, ts3) ← parseParamsLoop f ts2 []
    let (s, ts4) ← parseScope f ts3
    pure (.functionDecl params s, ts4)
termination_by structural f _ => f

/-- Parameter-list loop of parse_function (the closing bracket is
consumed here). -/
def parseParamsLoop : Nat → List Token → List String → Except Err (List String × List Token)
  | 0, _, _ => .error .outOfFuel
  | f + 1, ts, acc =>
    if isConsumable ts .CLOSED_BRACKET then do
      let (_, ts1) ← consume ts .CLOSED_BRACKET
      pure (acc.reverse, ts1)
    else do
      let (v, ts1) ← consume ts .IDENTIFIER
      if isConsumable ts1 .CLOSED_BRACKET then do
        let (_, ts2) ← consume ts1 .CLOSED_BRACKET
        pure ((TokVal.asStr v :: acc).reverse, ts2)
      else do
        let (_, ts2) ← consume ts1 .COMMA
        parseParamsLoop f (skipEndLines ts2) (TokVal.asStr v :: acc)
termination_by structural f _ _ => f

/-- Parser.parse_condition: a parenthesised logical-or expression. -/
def parseCondition : Nat → List Token → Except Err (Node × List Token)
  | 0, _ => .error .outOfFuel
  | f + 1, ts => do
    let (_, ts1) ← consume ts .OPEN_BRACKET
    let (r, ts2) ← parseLogicalOr f ts1
    let (_, ts3) ← consume ts2 .CLOSED_BRACKET
    pure (r, ts3)
termination_by structural f _ => f

end

/-- End-to-end pipeline of the interpreter facade: lex the source,
parse the program, evaluate the root Scope node against a single
top-level environment dict (the default flush of ScopeNode.evaluate, as
MiniInterpreter.execute does on a fresh environment). -/
def run (fuel : Nat) (src : String) : Except Err Value := do
  let toks ← tokenize fuel src.toList
  let (tree, _) ← parseProgram fuel toks
  let (v, _) ← evalNode fuel tree 0 [[]]
  pure v

/-- Python callable on the value domain: only Function values are
callable (the check of OperatorNode.evaluate_func_call). -/
def Value.callable : Value → Bool
  | .closure _ _ _ => true
  | _ => false

/-- All adjacent pairs of a comparison chain hold over already-evaluated
values, short-circuiting at the first failing pair (the pairwise reading
shared by the claim and the spec laws; the prev flag fed to the operator
step is always true, which is also the only value the source loop can
carry into a step). -/
def chainHolds : List String → List Value → Except Err Bool
  | op :: ops, a :: b :: rest => do
    let r ← applyCmpOp op a b true
    if !r then pure false else chainHolds ops (b :: rest)
  | _, _ => pure true

/-- Modelled from the spec (claim C2 wording), not from the source: a
comparison chain that evaluates every operand exactly once, left to
right, and then tests the adjacent pairs over the resulting values with
short-circuit.  Compared against the evalCmpChain of the source, which
re-evaluates interior operands. -/
def specComparisonEvalOnce (f : Nat) (ops : List String) (operands : List Node)
    (ctx : Nat) (store : Store) : Except Err (Value × Store) := do
  let (vs, s1) ← evalArgs f operands ctx store
  match chainHolds ops vs with
  | .ok b => pure (.bool b, s1)
  | .error e => .error e

/-- The dict at reference e2 extends the dict e: the first entries carry
exactly the keys of e in order (with possibly updated values), and every
later entry carries a key unbound in e.  This is the shape every
evaluation step preserves on the environment it runs in: updates keep
positions, fresh keys append, and scope flushes cut the fresh suffix. -/
def EnvExt (e e2 : Env) : Prop :=
  (e2.take e.length).map Prod.fst = e.map Prod.fst ∧
  ∀ key ∈ (e2.drop e.length).map Prod.fst, envGet e key = none

/-- Store evolution seen from the environment reference ctx: the store
only grows, dict objects other than ctx are untouched, and the ctx dict
is extended in the EnvExt sense. -/
def StoreOK (ctx : Nat) (store store2 : Store) : Prop :=
  store.length ≤ store2.length ∧
  (∀ r, r < store.length → r ≠ ctx → store2.get? r = store.get? r) ∧
  EnvExt (storeGet store ctx) (storeGet store2 ctx)

/-- Store evolution of a closure call: the store only grows and every
pre-existing dict object is untouched (the call works on a fresh
copy). -/
def StoreExt (store store2 : Store) : Prop :=
  store.length ≤ store2.length ∧
  ∀ r, r < store.length → store2.get? r = store.get? r

/-- Comparison steps never fail on integer operands. -/
theorem applyCmpOp_int_ok (op : String) (a b : Int) (prev : Bool) :
    ∃ r, applyCmpOp op (.int a) (.int b) prev = .ok r := by
  simp only [applyCmpOp, pyCompare, asQ]
  split_ifs <;> exact ⟨_, rfl⟩

/-- On a chain of integer literals the source comparison loop returns the
Bool computed by the pairwise short-circuit reading chainHolds, and
leaves the store untouched. -/
theorem evalCmpChain_literal : ∀ (ops : List String) (nums : List Int) (f : Nat) (ctx : Nat) (store : Store),
    ops.length + 1 ≤ f →
    ∃ b, chainHolds ops (nums.map Value.int) = .ok b ∧
      evalCmpChain f ops (nums.map Node.number) true ctx store = .ok (.bool b, store) := by
  intro ops
  induction ops with
  | nil =>
    intro nums f ctx store hf
    obtain ⟨g, rfl⟩ : ∃ g, f = g + 1 := ⟨f - 1, by omega⟩
    refine ⟨true, rfl, ?_⟩
    cases nums with
    | nil => rfl
    | cons a rest => cases rest <;> rfl
  | cons op ops ih =>
    intro nums f ctx store hf
    obtain ⟨g, rfl⟩ : ∃ g, f = g + 1 := ⟨f - 1, by omega⟩
    simp only [List.length_cons] at hf
    match nums with
    | [] => exact ⟨true, rfl, rfl⟩
    | [a] => exact ⟨true, rfl, rfl⟩
    | a :: b :: rest =>
      obtain ⟨g2, rfl⟩ : ∃ g2, g = g2 + 1 := ⟨g - 1, by omega⟩
      obtain ⟨r, hr⟩ := applyCmpOp_int_ok op a b true
      cases r with
      | false =>
        refine ⟨false, ?_, ?_⟩
        · simp only [List.map_cons, chainHolds, hr]; rfl
        · simp only [List.map_cons, evalCmpChain, evalNode, pure, Except.pure, hr]; rfl
      | true =>
        obtain ⟨b2, hch, hev⟩ := ih (b :: rest) (g2 + 1) ctx store (by omega)
        refine ⟨b2, ?_, ?_⟩
        · simp only [List.map_cons, chainHolds, hr]
          simp only [List.map_cons] at hch
          simpa using hch
        · simp only [List.map_cons, evalCmpChain, evalNode, pure, Except.pure, hr]
          simp only [List.map_cons] at hev
          simpa using hev

/-- C1, counterexample: the claim says a binding added to the declaring
environment after a function declaration is evaluated and before the
call is not visible inside the call body.  On the code it is visible:
declare f with body x, then bind x to 5, then call f; under the claimed
declaration-time snapshot the lookup of x would fail with NameError, but
the call returns 5 because FunctionDeclarationNode captures the
environment dict by reference and the copy is taken at call time. -/
theorem C1_counterexample :
    evalNode 100 (.scope [
      .assignment [.identifier "f", .functionDecl [] (.scope [.identifier "x"])] [false],
      .assignment [.identifier "x", .number 5] [false],
      .funcCall (.identifier "f") [[]]]) 0 [[]]
    = .ok (.int 5, [[], [("f", .closure [] (.scope [.identifier "x"]) 0), ("x", .int 5)]]) := rfl

/-- C1, amended: the Function value captures the declaring environment
dict by reference; each call copies that dict as it stands at call time
and evaluates the body in the copy.  First conjunct: a rebinding of x
between declaration and call is what the call body sees (the call returns
the latest value v, not the declaration-time w).  Second conjunct: writes
inside the call body go to the fresh copy and do not leak back into the
declaring environment (x still reads w after the call). -/
theorem C1_theorem (v w : Int) :
    (evalNode 100 (.scope [
      .assignment [.identifier "x", .number w] [false],
      .assignment [.identifier "f", .functionDecl [] (.scope [.identifier "x"])] [false],
      .assignment [.identifier "x", .number v] [false],
      .funcCall (.identifier "f") [[]]]) 0 [[]]).map Prod.fst = .ok (.int v) ∧
    (evalNode 100 (.scope [
      .assignment [.identifier "x", .number w] [false],
      .assignment [.identifier "f", .functionDecl []
        (.scope [.assignment [.identifier "x", .number v] [false]])] [false],
      .funcCall (.identifier "f") [[]],
      .identifier "x"]) 0 [[]]).map Prod.fst = .ok (.int w) :=
  ⟨rfl, rfl⟩

/-- C2, counterexample: the claim says each interior operand of a
comparison chain is evaluated exactly once.  On the chain
0 < (x := x + 1) < 2 with x initially 0, the code evaluates the interior
assignment twice (once as the right operand of the first pair, once as
the left operand of the second pair): x ends at 2 and the chain is
falsy, while the exactly-once reading of the claim (the spec-modelled
specComparisonEvalOnce) leaves x at 1 and is truthy. -/
theorem C2_counterexample :
    evalNode 20 (.comparison ["<", "<"] [.number 0,
      .assignment [.identifier "x", .leftPoly ["+"] [.identifier "x", .number 1]] [false],
      .number 2]) 0 [[("x", .int 0)]] = .ok (.bool false, [[("x", .int 2)]]) ∧
    specComparisonEvalOnce 20 ["<", "<"] [.number 0,
      .assignment [.identifier "x", .leftPoly ["+"] [.identifier "x", .number 1]] [false],
      .number 2] 0 [[("x", .int 0)]] = .ok (.bool true, [[("x", .int 1)]]) :=
  ⟨rfl, rfl⟩

/-- C2, amended: the chain is truthy iff every adjacent pair holds, with
short-circuit at the first failing pair, but an interior operand is
re-evaluated for each pair it takes part in (twice) rather than once.
First conjunct: on side-effect-free operands (integer literals) the chain
value is exactly the pairwise short-circuit reading.  Second conjunct:
short-circuit at the first failing pair is observable because a failing
later operand is never evaluated (the unbound identifier raises no
NameError).  Third conjunct: the interior operand is evaluated once per
adjacent pair (x advances from 0 to 2 across the two pairs). -/
theorem C2_theorem :
    (∀ (ops : List String) (nums : List Int) (f : Nat) (ctx : Nat) (store : Store),
      ops.length + 1 ≤ f →
      ∃ b, chainHolds ops (nums.map Value.int) = .ok b ∧
        evalCmpChain f ops (nums.map Node.number) true ctx store = .ok (.bool b, store)) ∧
    evalNode 20 (.comparison ["<", "<"] [.number 1, .number 0, .identifier "undeclared"]) 0 [[]]
      = .ok (.bool false, [[]]) ∧
    evalNode 20 (.comparison ["<", "<"] [.number 0,
      .assignment [.identifier "x", .leftPoly ["+"] [.identifier "x", .number 1]] [false],
      .number 2]) 0 [[("x", .int 0)]] = .ok (.bool false, [[("x", .int 2)]]) :=
  ⟨evalCmpChain_literal, rfl, rfl⟩

/-- C2, witness for the quantified conjunct: the chain 1 < 2 < 3 over
literals is truthy and leaves the store untouched. -/
theorem C2_witness :
    ∃ b, chainHolds ["<", "<"] ([1, 2, 3].map Value.int) = .ok b ∧
      evalCmpChain 3 ["<", "<"] ([1, 2, 3].map Node.number) true 0 [[]] = .ok (.bool b, [[]]) :=
  C2_theorem.1 ["<", "<"] [1, 2, 3] 3 0 [[]] (by decide)

/-- C3: the expression 2 and 1 joined by an ampersand never reaches the
parser, because the ampersand is missing from the operator dispatch set
of the lexer and raises the unrecognized-symbol StaticSyntaxError; and
even on a hand-fed OP_BITWISE_AND token list, parse_bitwise_and emits an
OperatorNode carrying the pipe operator, which evaluates to the bitwise
or 3 instead of the claimed bitwise and 0 (the last conjunct shows what
the intended ampersand OperatorNode would evaluate to). -/
theorem C3_theorem :
    tokenize 100 (("2 & 1").toList) = .error .staticSyntaxError ∧
    parseBitwiseAnd 100 [(.INTEGER, .int 2), (.OP_BITWISE_AND, .str "&"), (.INTEGER, .int 1), (.END_OF_FILE, .none)]
      = .ok (.operator "|" [.number 2, .number 1], [(.END_OF_FILE, .none)]) ∧
    evalNode 10 (.operator "|" [.number 2, .number 1]) 0 [[]] = .ok (.int 3, [[]]) ∧
    evalNode 10 (.operator "&" [.number 2, .number 1]) 0 [[]] = .ok (.int 0, [[]]) :=
  ⟨rfl, rfl, rfl, rfl⟩

/-- C5: the return-old assignment program of the claim does not lex: the
lexer has no branch producing the equals-colon lexeme, so the program
fails with StaticSyntaxError (first two conjuncts).  At the AST level
the return-old semantics the claim describes does hold: an
AssignmentNode built with the return-old order stores the new value and
returns the previous one, so x := v; y := (x =: u); [x, y] evaluates to
the list [u, v] for every pair of integer literals. -/
theorem C5_theorem :
    tokenize 200 (("x := 1; y := (x =: 2)").toList) = .error .staticSyntaxError ∧
    run 200 ("x := 1; y := (x =: 2)") = .error .staticSyntaxError ∧
    (∀ v u : Int,
      evalNode 20 (.scope [
        .assignment [.identifier "x", .number v] [false],
        .assignment [.identifier "y", .assignment [.identifier "x", .number u] [true]] [false],
        .listLit [.identifier "x", .identifier "y"]]) 0 [[]] = .ok (.list [.int u, .int v], [[]])) :=
  ⟨rfl, rfl, fun _ _ => rfl⟩

/-- C6, counterexample: the claim says that with matching argument
counts no FunctionArgsCountError is raised.  Declaring a zero-parameter
function whose body adds two lists of different lengths and calling it
with zero arguments (matching counts) still fails with
FunctionArgsCountError: the elementwise list addition raises the host
ValueError, and the try-except around the body inside the call wrapper
of FunctionDeclarationNode.evaluate converts any host ValueError into
DIFunctionArgsCountError. -/
theorem C6_counterexample :
    evalNode 50 (.scope [
      .assignment [.identifier "f", .functionDecl [] (.scope [
        .leftPoly ["+"] [.listLit [.number 1, .number 2], .listLit [.number 1]]])] [false],
      .funcCall (.identifier "f") [[]]]) 0 [[]] = .error .funcArgsCountError := rfl

/-- C6, amended: an argument-count mismatch always fails with
FunctionArgsCountError (first conjunct); calling a non-callable value
fails with TypeError (second conjunct); and with matching counts the
arity check passes: a FunctionArgsCountError can then only surface when
the body itself raises a host ValueError (converted by the call wrapper)
or a nested FunctionArgsCountError, and a successful body evaluation is
returned unchanged (third conjunct). -/
theorem C6_theorem :
    (∀ (f : Nat) (ps : List String) (body : Node) (r : Nat) (args : List Value) (store : Store),
      ps.length ≠ args.length →
      callClosure (f + 1) ps body r args store = .error .funcArgsCountError) ∧
    (∀ (f : Nat) (v : Value) (g : List Node) (gs : List (List Node)) (ctx : Nat) (store : Store),
      v.callable = false →
      evalCallGroups (f + 1) v (g :: gs) ctx store = .error .typeError) ∧
    (∀ (f : Nat) (ps : List String) (body : Node) (r : Nat) (args : List Value) (store : Store),
      ps.length = args.length →
      (callClosure (f + 1) ps body r args store = .error .funcArgsCountError →
        evalNode f body store.length (store ++ [bindParams (storeGet store r) ps args]) = .error .hostValueError ∨
        evalNode f body store.length (store ++ [bindParams (storeGet store r) ps args]) = .error .funcArgsCountError) ∧
      (∀ v2 s2, evalNode f body store.length (store ++ [bindParams (storeGet store r) ps args]) = .ok (v2, s2) →
        callClosure (f + 1) ps body r args store = .ok (v2, s2))) := by
  refine ⟨?_, ?_, ?_⟩
  · intro f ps body r args store h
    simp [callClosure, h]
  · intro f v g gs ctx store h
    cases v <;> simp_all [Value.callable, evalCallGroups]
  · intro f ps body r args store h
    simp only [callClosure, h]
    simp only [ne_eq, not_true_eq_false, if_false, ite_false]
    constructor
    · intro hcc
      cases he : evalNode f body store.length (store ++ [bindParams (storeGet store r) ps args]) with
      | ok x => rw [he] at hcc; simp at hcc
      | error e => cases e <;> simp_all
    · intro v2 s2 he; rw [he]

/-- C6, witness: one concrete instance of each conjunct of the amended
claim. -/
theorem C6_witness :
    callClosure 1 ["a"] (.number 7) 0 [] [[]] = .error .funcArgsCountError ∧
    evalCallGroups 1 (.int 5) [[]] 0 [[]] = .error .typeError ∧
    callClosure 2 [] (.number 7) 0 [] [[]] = .ok (.int 7, [[], []]) :=
  ⟨C6_theorem.1 0 ["a"] (.number 7) 0 [] [[]] (by decide),
   C6_theorem.2.1 0 (.int 5) [] [] 0 [[]] rfl,
   (C6_theorem.2.2 1 [] (.number 7) 0 [] [[]] rfl).2 (.int 7) [[], []] rfl⟩

/-- C7: ListWrapper indexing of a list of length n succeeds exactly on
the integer range from minus n to n minus one and raises the host
IndexError outside it, and a negative index addresses the list from the
end: the item at minus one minus j equals the item at n minus one minus
j for every j below n. -/
theorem C7_theorem (L : List Value) (i : Int) :
    ((-(L.length : Int) ≤ i ∧ i ≤ (L.length : Int) - 1) → ∃ v, ListWrapper.getitem L i = .ok v) ∧
    (¬(-(L.length : Int) ≤ i ∧ i ≤ (L.length : Int) - 1) →
      ListWrapper.getitem L i = .error .hostIndexError) ∧
    (∀ j : Nat, j < L.length →
      ListWrapper.getitem L (-1 - (j : Int)) = ListWrapper.getitem L ((L.length : Int) - 1 - (j : Int))) := by
  refine ⟨?_, ?_, ?_⟩
  · intro h
    have h2 : -((L.length : Int)) ≤ i ∧ i < (L.length : Int) := ⟨h.1, by omega⟩
    exact ⟨_, by simp only [ListWrapper.getitem, if_pos h2]; rfl⟩
  · intro h
    have h2 : ¬(-((L.length : Int)) ≤ i ∧ i < (L.length : Int)) := by omega
    simp only [ListWrapper.getitem, if_neg h2]
  · intro j hj
    have h1 : -((L.length : Int)) ≤ -1 - (j : Int) ∧ -1 - (j : Int) < (L.length : Int) := by omega
    have h2 : -((L.length : Int)) ≤ (L.length : Int) - 1 - (j : Int) ∧
        (L.length : Int) - 1 - (j : Int) < (L.length : Int) := by omega
    simp only [ListWrapper.getitem, if_pos h1, if_pos h2]
    have e1 : (-1 - (j : Int) < 0) = True := by simp; omega
    have e2 : ((L.length : Int) - 1 - (j : Int) < 0) = False := by simp; omega
    simp only [e1, e2, if_true, if_false]
    have e3 : (-1 - (j : Int) + L.length).toNat = ((L.length : Int) - 1 - (j : Int)).toNat := by omega
    rw [e3]

/-- C7, witness: on a two-element list, index 1 succeeds, index 2 is out
of range, and index minus one reads the last element. -/
theorem C7_witness :
    (∃ v, ListWrapper.getitem [Value.int 10, Value.int 20] 1 = .ok v) ∧
    ListWrapper.getitem [Value.int 10, Value.int 20] 2 = .error .hostIndexError ∧
    ListWrapper.getitem [Value.int 10, Value.int 20] (-1 - ((0 : Nat) : Int)) =
      ListWrapper.getitem [Value.int 10, Value.int 20]
        ((([Value.int 10, Value.int 20] : List Value).length : Int) - 1 - ((0 : Nat) : Int)) :=
  ⟨(C7_theorem [Value.int 10, Value.int 20] 1).1 (by decide),
   (C7_theorem [Value.int 10, Value.int 20] 2).2.1 (by decide),
   (C7_theorem [Value.int 10, Value.int 20] 0).2.2 0 (by decide)⟩

/-- C8: the source program true lexes to a BOOLEAN token, but parsing
fails with StaticSyntaxError because the BOOLEAN branch of parse_primary
calls consume with the NUMBER token kind, which never matches; the same
happens for false.  A BooleanNode itself evaluates to the corresponding
Bool value (last conjunct), so the claimed evaluation is exactly what
the dead code after the mismatched consume would have produced. -/
theorem C8_theorem :
    tokenize 100 (("true").toList) = .ok [(.BOOLEAN, .str "true"), (.END_OF_FILE, .none)] ∧
    parseProgram 100 [(.BOOLEAN, .str "true"), (.END_OF_FILE, .none)] = .error .staticSyntaxError ∧
    run 100 ("true") = .error .staticSyntaxError ∧
    run 100 ("false") = .error .staticSyntaxError ∧
    (∀ (f : Nat) (b : Bool) (ctx : Nat) (store : Store),
      evalNode (f + 1) (.boolean b) ctx store = .ok (.bool b, store)) :=
  ⟨rfl, rfl, rfl, rfl, fun _ _ _ _ => rfl⟩

/-- C9: division, floor division and modulo of any integer by the
integer literal zero fail with the DI ZeroDivisionError (the
LeftPolyOperatorNode handler translates the host exception); an
identifier with no binding fails with NameError; and the full pipeline
agrees on the spec scenarios (the division source is terminated with a
semicolon because a source whose very last character is the digit zero
trips an unrelated unguarded lookahead in lex_number). -/
theorem C9_theorem :
    (∀ (a : Int) (ctx : Nat) (store : Store),
      evalNode 5 (.leftPoly ["/"] [.number a, .number 0]) ctx store = .error .zeroDivisionError ∧
      evalNode 5 (.leftPoly ["//"] [.number a, .number 0]) ctx store = .error .zeroDivisionError ∧
      evalNode 5 (.leftPoly ["%"] [.number a, .number 0]) ctx store = .error .zeroDivisionError) ∧
    (∀ (f : Nat) (name : String) (ctx : Nat) (store : Store),
      envGet (storeGet store ctx) name = none →
      evalNode (f + 1) (.identifier name) ctx store = .error .nameError) ∧
    run 100 ("1/0;") = .error .zeroDivisionError ∧
    run 100 ("undeclared + 1") = .error .nameError := by
  refine ⟨fun _ _ _ => ⟨rfl, rfl, rfl⟩, ?_, rfl, rfl⟩
  intro f name ctx store h
  simp [evalNode, h]

/-- C9, witness: lookup of an unbound name in the empty top environment
fails with NameError. -/
theorem C9_witness :
    evalNode 1 (.identifier "zz") 0 [[]] = .error .nameError :=
  C9_theorem.2.1 0 "zz" 0 [[]] rfl

/-- Body scan of a string literal whose content avoids the quote, the
backslash and the newline: the scan consumes exactly the content and the
closing quote. -/
theorem lexStringScan_clean (s : List Char) (rest : List Char)
    (h : ∀ c ∈ s, c ≠ '"' ∧ c ≠ '\\' ∧ c ≠ '\n') :
    lexStringScan (s ++ '"' :: rest) false = .ok (s, rest) := by
  induction s with
  | nil => rfl
  | cons c cs ih =>
    obtain ⟨h1, h2, h3⟩ := h c (List.mem_cons_self c cs)
    simp only [List.cons_append, lexStringScan]
    rw [if_neg (by simp [h1]), if_neg h3]
    simp only [if_neg h2, List.append_eq]
    rw [ih (fun d hd => h d (List.mem_cons_of_mem _ hd))]
    rfl

/-- One tokenizer step on a text starting with a quote: the dispatcher
routes to lex_string and the token payload is the raw slice with both
quotes. -/
theorem tokenize_quote (f : Nat) (R : List Char) :
    tokenize (f + 1) ('"' :: R) =
      Except.bind (Except.bind (lexStringScan R false)
        (fun p => pure ((Lexemes.STRING, TokVal.str (String.mk ('"' :: (p.1 ++ ['"'])))), p.2)))
        (fun q => Except.bind (tokenize f q.2) (fun ts => pure (q.1 :: ts))) := rfl

/-- C10: a string literal evaluates to the raw source slice including
both quotes.  General conjunct: for every escape-free single-line
content s, the program consisting of the quoted literal lexes to a
STRING token carrying the full slice and evaluates to exactly that
slice.  Concrete conjuncts: the five-character literal around abc
evaluates to a string of length 5 whose first character is the quote,
and literals containing an escaped quote or an escaped backslash keep
the escape sequences verbatim (no decoding). -/
theorem C10_theorem :
    (∀ s : String, (∀ c ∈ s.data, c ≠ '"' ∧ c ≠ '\\' ∧ c ≠ '\n') →
      tokenize 30 (("\"" ++ s ++ "\"").toList)
        = .ok [(.STRING, .str ("\"" ++ s ++ "\"")), (.END_OF_FILE, .none)] ∧
      run 30 ("\"" ++ s ++ "\"") = .ok (.str ("\"" ++ s ++ "\""))) ∧
    run 30 ("\"abc\"") = .ok (.str ("\"abc\"")) ∧
    (∃ res : String, run 30 ("\"abc\"") = .ok (.str res) ∧
      res.data.length = 5 ∧ res.data.head? = some '"') ∧
    run 30 ("\"a\\\"b\"") = .ok (.str ("\"a\\\"b\"")) ∧
    run 30 ("\"a\\\\b\"") = .ok (.str ("\"a\\\\b\"")) := by
  refine ⟨?_, rfl, ⟨"\"abc\"", rfl, rfl, rfl⟩, rfl, rfl⟩
  intro s h
  have hdata : ("\"" ++ s ++ "\"").toList = '"' :: (s.data ++ ['"']) := by
    simp [String.toList, String.data_append]
  have hmk : String.mk ('"' :: (s.data ++ ['"'])) = "\"" ++ s ++ "\"" := by
    cases s with
    | mk l => rfl
  have htok : tokenize 30 (("\"" ++ s ++ "\"").toList)
      = .ok [(.STRING, .str ("\"" ++ s ++ "\"")), (.END_OF_FILE, .none)] := by
    rw [hdata, tokenize_quote, lexStringScan_clean s.data [] h, ← hmk]
    rfl
  have hrun : run 30 ("\"" ++ s ++ "\"") = .ok (.str ("\"" ++ s ++ "\"")) := by
    simp only [run]
    rw [htok, ← hmk]
    rfl
  exact ⟨htok, hrun⟩

/-- C10, witness: the general conjunct at the content abc. -/
theorem C10_witness :
    tokenize 30 (("\"" ++ "abc" ++ "\"").toList)
      = .ok [(.STRING, .str ("\"" ++ "abc" ++ "\"")), (.END_OF_FILE, .none)] ∧
    run 30 ("\"" ++ "abc" ++ "\"") = .ok (.str ("\"" ++ "abc" ++ "\"")) :=
  C10_theorem.1 "abc" (by decide)

theorem envGet_eq_none_iff (e : Env) (k : String) :
    envGet e k = none ↔ k ∉ envKeys e := by
  simp only [envGet, envKeys]
  constructor
  · intro h hk
    obtain ⟨kv, hmem, hfst⟩ := List.mem_map.mp hk
    cases hfind : e.find? (fun kv => kv.1 == k) with
    | some kv2 => rw [hfind] at h; exact Option.noConfusion h
    | none =>
      have := List.find?_eq_none.mp hfind kv hmem
      simp [hfst] at this
  · intro hk
    cases hfind : e.find? (fun kv => kv.1 == k) with
    | none => rfl
    | some kv2 =>
      have hbeq := List.find?_some hfind
      have hmem2 := List.mem_of_find?_eq_some hfind
      simp only [beq_iff_eq] at hbeq
      exact absurd (List.mem_map.mpr ⟨kv2, hmem2, hbeq⟩) hk

theorem envSet_cases (e : Env) (k : String) (v : Value) :
    ((envSet e k v).map Prod.fst = e.map Prod.fst) ∨
    (envGet e k = none ∧ envSet e k v = e ++ [(k, v)]) := by
  induction e with
  | nil => exact Or.inr ⟨rfl, rfl⟩
  | cons kv rest ih =>
    by_cases hk : kv.1 == k
    · left
      simp only [envSet, if_pos hk, List.map_cons]
      simp only [beq_iff_eq] at hk
      rw [hk]
    · rcases ih with h1 | ⟨h2, h3⟩
      · left
        simp only [envSet, if_neg hk, List.map_cons, h1]
      · right
        refine ⟨?_, by simp only [envSet, if_neg hk, h3, List.cons_append]⟩
        simp only [envGet, List.find?, hk]
        simpa [envGet] using h2

theorem envExt_length {e e2 : Env} (h : EnvExt e e2) : e.length ≤ e2.length := by
  have := congrArg List.length h.1
  simp only [List.length_map, List.length_take] at this
  omega

theorem envExt_refl (e : Env) : EnvExt e e := ⟨by simp, by simp⟩

theorem envExt_nil (e2 : Env) : EnvExt [] e2 := ⟨by simp, fun key _ => rfl⟩

theorem envExt_keys_subset {e e2 : Env} (h : EnvExt e e2) :
    ∀ k, k ∈ envKeys e → k ∈ envKeys e2 := by
  intro k hk
  have hk2 : k ∈ (e2.take e.length).map Prod.fst := h.1 ▸ hk
  obtain ⟨kv, hmem, hfst⟩ := List.mem_map.mp hk2
  exact List.mem_map.mpr ⟨kv, List.take_subset _ _ hmem, hfst⟩

theorem envExt_trans {e e2 e3 : Env} (h1 : EnvExt e e2) (h2 : EnvExt e2 e3) : EnvExt e e3 := by
  have hle : e.length ≤ e2.length := envExt_length h1
  refine ⟨?_, ?_⟩
  · have ht : e3.take e.length = (e3.take e2.length).take e.length := by
      rw [List.take_take, Nat.min_eq_left hle]
    calc (e3.take e.length).map Prod.fst
        = ((e3.take e2.length).map Prod.fst).take e.length := by
          rw [ht, List.map_take]
      _ = (e2.map Prod.fst).take e.length := by rw [h2.1]
      _ = (e2.take e.length).map Prod.fst := by rw [List.map_take]
      _ = e.map Prod.fst := h1.1
  · intro key hkey
    rw [List.map_drop] at hkey
    have hsplit : e3.map Prod.fst = e2.map Prod.fst ++ (e3.map Prod.fst).drop e2.length := by
      conv_lhs => rw [← List.take_append_drop e2.length (e3.map Prod.fst)]
      rw [← List.map_take, h2.1]
    rw [hsplit, List.drop_append_of_le_length (by simpa using hle)] at hkey
    rcases List.mem_append.mp hkey with hk1 | hk2
    · rw [← List.map_drop] at hk1
      exact h1.2 key hk1
    · rw [← List.map_drop] at hk2
      have h3 := h2.2 key hk2
      rw [envGet_eq_none_iff] at h3 ⊢
      exact fun hc => h3 (envExt_keys_subset h1 key hc)

theorem envExt_of_map_fst_eq {e e2 e3 : Env} (hm : e2.map Prod.fst = e3.map Prod.fst)
    (h : EnvExt e e2) : EnvExt e e3 := by
  refine ⟨?_, ?_⟩
  · rw [List.map_take, ← hm, ← List.map_take]
    exact h.1
  · intro key hk
    rw [List.map_drop, ← hm, ← List.map_drop] at hk
    exact h.2 key hk

theorem envExt_envSet {e e2 : Env} (h : EnvExt e e2) (k : String) (v : Value) :
    EnvExt e (envSet e2 k v) := by
  rcases envSet_cases e2 k v with hA | ⟨hB1, hB2⟩
  · exact envExt_of_map_fst_eq hA.symm h
  · have hle : e.length ≤ e2.length := envExt_length h
    rw [hB2]
    refine ⟨?_, ?_⟩
    · rw [List.take_append_of_le_length hle]
      exact h.1
    · intro key hk
      rw [List.drop_append_of_le_length hle, List.map_append, List.mem_append] at hk
      rcases hk with hk1 | hk2
      · exact h.2 key hk1
      · simp only [List.map_cons, List.map_nil, List.mem_singleton] at hk2
        subst hk2
        rw [envGet_eq_none_iff] at hB1 ⊢
        exact fun hc => hB1 (envExt_keys_subset h key hc)

theorem envExt_flush {e e2 : Env} (h : EnvExt e e2) :
    e2.filter (fun kv => (envKeys e).contains kv.1) = e2.take e.length := by
  conv_lhs => rw [← List.take_append_drop e.length e2]
  rw [List.filter_append]
  have h1 : (e2.take e.length).filter (fun kv => (envKeys e).contains kv.1) = e2.take e.length := by
    apply List.filter_eq_self.mpr
    intro kv hmem
    have : kv.1 ∈ envKeys e := by
      rw [envKeys, ← h.1]
      exact List.mem_map.mpr ⟨kv, hmem, rfl⟩
    exact List.elem_eq_true_of_mem this
  have h2 : (e2.drop e.length).filter (fun kv => (envKeys e).contains kv.1) = [] := by
    apply List.filter_eq_nil_iff.mpr
    intro kv hmem
    have hnone := h.2 kv.1 (List.mem_map.mpr ⟨kv, hmem, rfl⟩)
    rw [envGet_eq_none_iff] at hnone
    simpa using hnone
  rw [h1, h2, List.append_nil]

theorem envExt_take {e e2 : Env} (h : EnvExt e e2) : EnvExt e (e2.take e.length) := by
  refine ⟨?_, ?_⟩
  · rw [List.take_take, Nat.min_self]
    exact h.1
  · intro key hk
    rw [List.drop_take, Nat.sub_self, List.take_zero, List.map_nil] at hk
    exact absurd hk (List.not_mem_nil key)

theorem envGet_take_of_mem {e e2 : Env} (h : EnvExt e e2) (k : String)
    (hk : k ∈ envKeys e) :
    envGet (e2.take e.length) k = envGet e2 k := by
  have hk2 : k ∈ (e2.take e.length).map Prod.fst := by rw [h.1]; exact hk
  have hsome : ((e2.take e.length).find? (fun kv => kv.1 == k)).isSome := by
    rw [List.find?_isSome]
    obtain ⟨kv, hmem, hfst⟩ := List.mem_map.mp hk2
    exact ⟨kv, hmem, by simp [hfst]⟩
  simp only [envGet]
  conv_rhs => rw [← List.take_append_drop e.length e2]
  rw [List.find?_append]
  cases hfind : (e2.take e.length).find? (fun kv => kv.1 == k) with
  | none => rw [hfind] at hsome; exact absurd hsome (by simp)
  | some kv => rfl

theorem storeGet_eq_nil {s : Store} {r : Nat} (h : s.length ≤ r) : storeGet s r = [] := by
  simp [storeGet, List.get?_eq_getElem?, List.getElem?_eq_none h]

theorem storeGet_set_self {s : Store} {r : Nat} (e : Env) (h : r < s.length) :
    storeGet (storeSet s r e) r = e := by
  simp [storeGet, storeSet, List.get?_eq_getElem?, List.getElem?_set_self h]

theorem storeGet_append_left {s s2 : Store} {r : Nat} (h : r < s.length) :
    storeGet (s ++ s2) r = storeGet s r := by
  simp [storeGet, List.get?_eq_getElem?, List.getElem?_append_left h]

theorem storeOK_refl (ctx : Nat) (s : Store) : StoreOK ctx s s :=
  ⟨Nat.le_refl _, fun _ _ _ => rfl, envExt_refl _⟩

theorem storeOK_trans {ctx : Nat} {s s1 s2 : Store}
    (h1 : StoreOK ctx s s1) (h2 : StoreOK ctx s1 s2) : StoreOK ctx s s2 := by
  refine ⟨Nat.le_trans h1.1 h2.1, ?_, envExt_trans h1.2.2 h2.2.2⟩
  intro r hr hne
  rw [h2.2.1 r (Nat.lt_of_lt_of_le hr h1.1) hne, h1.2.1 r hr hne]

theorem storeOK_of_storeExt {s s2 : Store} (h : StoreExt s s2) (ctx : Nat) :
    StoreOK ctx s s2 := by
  refine ⟨h.1, fun r hr _ => h.2 r hr, ?_⟩
  by_cases hc : ctx < s.length
  · have hg : storeGet s2 ctx = storeGet s ctx := by
      simp only [storeGet, h.2 ctx hc]
    rw [hg]
    exact envExt_refl _
  · rw [storeGet_eq_nil (Nat.le_of_not_lt hc)]
    exact envExt_nil _

theorem storeOK_envSet {ctx : Nat} {s s1 : Store} (h : StoreOK ctx s s1) (k : String) (v : Value) :
    StoreOK ctx s (storeSet s1 ctx (envSet (storeGet s1 ctx) k v)) := by
  refine ⟨by simpa [storeSet] using h.1, ?_, ?_⟩
  · intro r hr hne
    have hg : (storeSet s1 ctx (envSet (storeGet s1 ctx) k v)).get? r = s1.get? r := by
      simp [storeSet, List.get?_eq_getElem?, List.getElem?_set_ne (Ne.symm hne)]
    rw [hg, h.2.1 r hr hne]
  · by_cases hc : ctx < s1.length
    · rw [storeGet_set_self _ hc]
      exact envExt_envSet h.2.2 k v
    · rw [storeSet, List.set_eq_of_length_le (Nat.le_of_not_lt hc)]
      exact h.2.2

theorem storeOK_flush {ctx : Nat} {s s1 : Store} (h : StoreOK ctx s s1) :
    StoreOK ctx s (storeSet s1 ctx
      ((storeGet s1 ctx).filter (fun kv => (envKeys (storeGet s ctx)).contains kv.1))) := by
  refine ⟨by simpa [storeSet] using h.1, ?_, ?_⟩
  · intro r hr hne
    have hg : (storeSet s1 ctx
        ((storeGet s1 ctx).filter (fun kv => (envKeys (storeGet s ctx)).contains kv.1))).get? r
        = s1.get? r := by
      simp [storeSet, List.get?_eq_getElem?, List.getElem?_set_ne (Ne.symm hne)]
    rw [hg, h.2.1 r hr hne]
  · by_cases hc : ctx < s1.length
    · rw [storeGet_set_self _ hc, envExt_flush h.2.2]
      exact envExt_take h.2.2
    · rw [storeSet, List.set_eq_of_length_le (Nat.le_of_not_lt hc)]
      exact h.2.2

theorem storeExt_of_call {store s2 : Store} {newEnv : Env}
    (h : StoreOK store.length (store ++ [newEnv]) s2) : StoreExt store s2 := by
  refine ⟨?_, ?_⟩
  · have := h.1
    simp only [List.length_append, List.length_singleton] at this
    omega
  · intro r hr
    have h1 := h.2.1 r (by simp; omega) (by omega)
    rw [h1, List.get?_eq_getElem?, List.get?_eq_getElem?, List.getElem?_append_left hr]

theorem okPair {α β : Type} {v1 : α} {s1 : β} {v : α} {s2 : β}
    (h : (Except.ok (v1, s1) : Except Err (α × β)) = .ok (v, s2)) :
    v1 = v ∧ s1 = s2 := by
  injection h with h2
  exact ⟨congrArg Prod.fst h2, congrArg Prod.snd h2⟩

theorem bindOkEq {a b : Type} {e : Except Err a} {k : a → Except Err b} (x : a)
    (he : e = .ok x) : (e >>= k) = k x := by rw [he]; rfl

theorem bindErrEq {a b : Type} {e : Except Err a} {k : a → Except Err b} {er : Err}
    (he : e = .error er) : (e >>= k) = .error er := by rw [he]; rfl

theorem evalStoreOK : ∀ f : Nat,
    (∀ n ctx store v s2, evalNode f n ctx store = .ok (v, s2) → StoreOK ctx store s2) ∧
    (∀ instrs flush ctx store v s2, evalScope f instrs flush ctx store = .ok (v, s2) → StoreOK ctx store s2) ∧
    (∀ l last ctx store v s2, evalInstrs f l last ctx store = .ok (v, s2) → StoreOK ctx store s2) ∧
    (∀ cs bs els ctx store v s2, evalIf f cs bs els ctx store = .ok (v, s2) → StoreOK ctx store s2) ∧
    (∀ c b r ctx store v s2, evalWhile f c b r ctx store = .ok (v, s2) → StoreOK ctx store s2) ∧
    (∀ ts os rhsv ctx store v s2, evalAssignChain f ts os rhsv ctx store = .ok (v, s2) → StoreOK ctx store s2) ∧
    (∀ t rhsv o ctx store v s2, performAssignment f t rhsv o ctx store = .ok (v, s2) → StoreOK ctx store s2) ∧
    (∀ rhsv ctx store v s2, evalIfNot f rhsv ctx store = .ok (v, s2) → StoreOK ctx store s2) ∧
    (∀ l ctx store v s2, evalOrChain f l ctx store = .ok (v, s2) → StoreOK ctx store s2) ∧
    (∀ l all ctx store v s2, evalAndChain f l all ctx store = .ok (v, s2) → StoreOK ctx store s2) ∧
    (∀ l acc ctx store v s2, evalPowChain f l acc ctx store = .ok (v, s2) → StoreOK ctx store s2) ∧
    (∀ tag acc l ctx store v s2, evalFoldChain f tag acc l ctx store = .ok (v, s2) → StoreOK ctx store s2) ∧
    (∀ v0 gs ctx store v s2, evalCallGroups f v0 gs ctx store = .ok (v, s2) → StoreOK ctx store s2) ∧
    (∀ l ctx store vs s2, evalArgs f l ctx store = .ok (vs, s2) → StoreOK ctx store s2) ∧
    (∀ ps body rf args store v s2, callClosure f ps body rf args store = .ok (v, s2) → StoreExt store s2) ∧
    (∀ ops operands res ctx store v s2, evalCmpChain f ops operands res ctx store = .ok (v, s2) → StoreOK ctx store s2) ∧
    (∀ v0 l ctx store v s2, evalIndexChain f v0 l ctx store = .ok (v, s2) → StoreOK ctx store s2) ∧
    (∀ ops opnds lhs ctx store v s2, evalLeftPoly f ops opnds lhs ctx store = .ok (v, s2) → StoreOK ctx store s2) := by
  intro f
  induction f with
  | zero =>
    refine ⟨?_, ?_, ?_, ?_, ?_, ?_, ?_, ?_, ?_, ?_, ?_, ?_, ?_, ?_, ?_, ?_, ?_, ?_⟩ <;>
      (intros; exact Except.noConfusion (by assumption))
  | succ f ih =>
    obtain ⟨ihNode, ihScope, ihInstrs, ihIf, ihWhile, ihAssign, ihPerform, ihIfNot,
      ihOr, ihAnd, ihPow, ihFold, ihCall, ihArgs, ihClosure, ihCmp, ihIndex, ihLP⟩ := ih
    refine ⟨?_, ?_, ?_, ?_, ?_, ?_, ?_, ?_, ?_, ?_, ?_, ?_, ?_, ?_, ?_, ?_, ?_, ?_⟩
    · -- evalNode
      intro n ctx store v s2 h
      match n with
      | .scope instrs => exact ihScope instrs true ctx store v s2 h
      | .ifElse cs bs els => exact ihIf cs bs els ctx store v s2 h
      | .whileLoop c b => exact ihWhile c b .null ctx store v s2 h
      | .assignment chain orders =>
        simp only [evalNode] at h
        split at h
        · exact Except.noConfusion h
        next rhs heq =>
          split at h
          · exact Except.noConfusion h
          · exact Except.noConfusion h
          next r hne1 hne2 =>
            exact ihAssign chain.dropLast.reverse orders.reverse (.inl rhs) ctx store v s2 h
      | .operator op operands =>
        simp only [evalNode] at h
        split_ifs at h
        · exact ihOr operands ctx store v s2 h
        · exact ihAnd operands operands ctx store v s2 h
        · split at h
          · exact Except.noConfusion h
          next last heq =>
            cases heq2 : evalNode f last ctx store with
            | error e => rw [heq2] at h; exact Except.noConfusion h
            | ok p =>
              obtain ⟨av, s1⟩ := p
              rw [heq2] at h
              exact storeOK_trans (ihNode last ctx store av s1 heq2)
                (ihPow operands.dropLast.reverse av ctx s1 v s2 h)
        · split at h
          · exact Except.noConfusion h
          next x rest =>
            cases heq2 : evalNode f x ctx store with
            | error e => rw [heq2] at h; exact Except.noConfusion h
            | ok p =>
              obtain ⟨av, s1⟩ := p
              rw [heq2] at h
              exact storeOK_trans (ihNode x ctx store av s1 heq2)
                (ihFold .bxor av rest ctx s1 v s2 h)
        · split at h
          · exact Except.noConfusion h
          next x rest =>
            cases heq2 : evalNode f x ctx store with
            | error e => rw [heq2] at h; exact Except.noConfusion h
            | ok p =>
              obtain ⟨av, s1⟩ := p
              rw [heq2] at h
              exact storeOK_trans (ihNode x ctx store av s1 heq2)
                (ihFold .band av rest ctx s1 v s2 h)
        · split at h
          · exact Except.noConfusion h
          next x rest =>
            cases heq2 : evalNode f x ctx store with
            | error e => rw [heq2] at h; exact Except.noConfusion h
            | ok p =>
              obtain ⟨av, s1⟩ := p
              rw [heq2] at h
              exact storeOK_trans (ihNode x ctx store av s1 heq2)
                (ihFold .bor av rest ctx s1 v s2 h)
        · obtain ⟨rfl, rfl⟩ := okPair h
          exact storeOK_refl _ _
      | .funcCall callee groups =>
        simp only [evalNode] at h
        cases heq : evalNode f callee ctx store with
        | error e => rw [heq] at h; exact Except.noConfusion h
        | ok p =>
          obtain ⟨cv, s1⟩ := p
          rw [heq] at h
          exact storeOK_trans (ihNode callee ctx store cv s1 heq)
            (ihCall cv groups ctx s1 v s2 h)
      | .indexation primary groups =>
        simp only [evalNode] at h
        cases heq : evalNode f primary ctx store with
        | error e => rw [heq] at h; exact Except.noConfusion h
        | ok p =>
          obtain ⟨pv, s1⟩ := p
          rw [bindOkEq (pv, s1) heq] at h
          simp only [] at h
          have h1 := ihNode primary ctx store pv s1 heq
          split at h
          · exact Except.noConfusion h
          next r hne =>
            exact storeOK_trans h1 (ihIndex pv groups.flatten ctx s1 v s2 h)
      | .memberAccess primary names =>
        simp only [evalNode] at h
        cases heq : evalNode f primary ctx store with
        | error e => rw [heq] at h; exact Except.noConfusion h
        | ok p =>
          obtain ⟨pv, s1⟩ := p
          rw [heq] at h
          cases names with
          | nil =>
            obtain ⟨rfl, rfl⟩ := okPair h
            exact ihNode primary ctx store pv s1 heq
          | cons a rest => exact Except.noConfusion h
      | .comparison ops operands => exact ihCmp ops operands true ctx store v s2 h
      | .leftPoly ops operands =>
        simp only [evalNode] at h
        split at h
        · exact Except.noConfusion h
        next x rest =>
          cases heq2 : evalNode f x ctx store with
          | error e => rw [heq2] at h; exact Except.noConfusion h
          | ok p =>
            obtain ⟨lv, s1⟩ := p
            rw [heq2] at h
            exact storeOK_trans (ihNode x ctx store lv s1 heq2)
              (ihLP ops rest lv ctx s1 v s2 h)
      | .unary op operand =>
        simp only [evalNode] at h
        cases heq : evalNode f operand ctx store with
        | error e => rw [heq] at h; exact Except.noConfusion h
        | ok p =>
          obtain ⟨av, s1⟩ := p
          rw [bindOkEq (av, s1) heq] at h
          simp only [] at h
          have hD := ihNode operand ctx store av s1 heq
          split_ifs at h with h1 h2 h3 h4 h5
          · cases hn : pyNeg av with
            | error e => rw [bindErrEq hn] at h; exact Except.noConfusion h
            | ok nv =>
              rw [bindOkEq nv hn] at h
              obtain ⟨rfl, rfl⟩ := okPair h
              exact hD
          · obtain ⟨rfl, rfl⟩ := okPair h
            exact hD
          · cases hn : pyInvert av with
            | error e => rw [bindErrEq hn] at h; exact Except.noConfusion h
            | ok nv =>
              rw [bindOkEq nv hn] at h
              obtain ⟨rfl, rfl⟩ := okPair h
              exact hD
          · obtain ⟨rfl, rfl⟩ := okPair h
            exact hD
          · cases hn : pyLen av with
            | error e => rw [bindErrEq hn] at h; exact Except.noConfusion h
            | ok nv =>
              rw [bindOkEq nv hn] at h
              obtain ⟨rfl, rfl⟩ := okPair h
              exact hD
      | .functionDecl params body =>
        obtain ⟨rfl, rfl⟩ := okPair h
        exact storeOK_refl _ _
      | .number m =>
        obtain ⟨rfl, rfl⟩ := okPair h
        exact storeOK_refl _ _
      | .floatLit q =>
        obtain ⟨rfl, rfl⟩ := okPair h
        exact storeOK_refl _ _
      | .boolean b =>
        obtain ⟨rfl, rfl⟩ := okPair h
        exact storeOK_refl _ _
      | .nullLit =>
        obtain ⟨rfl, rfl⟩ := okPair h
        exact storeOK_refl _ _
      | .stringLit str =>
        obtain ⟨rfl, rfl⟩ := okPair h
        exact storeOK_refl _ _
      | .listLit elements =>
        simp only [evalNode] at h
        cases heq : evalArgs f elements ctx store with
        | error e => rw [heq] at h; exact Except.noConfusion h
        | ok p =>
          obtain ⟨vs, s1⟩ := p
          rw [heq] at h
          obtain ⟨rfl, rfl⟩ := okPair h
          exact ihArgs elements ctx store vs s1 heq
      | .identifier name =>
        simp only [evalNode] at h
        split at h
        next v1 heq =>
          obtain ⟨rfl, rfl⟩ := okPair h
          exact storeOK_refl _ _
        next heq => exact Except.noConfusion h
    · -- evalScope
      intro instrs flush ctx store v s2 h
      simp only [evalScope] at h
      split at h
      · exact Except.noConfusion h
      next v1 s1 heq =>
        have hmid := ihInstrs instrs .null ctx store v1 s1 heq
        split at h
        · obtain ⟨rfl, rfl⟩ := okPair h
          exact storeOK_flush hmid
        · obtain ⟨rfl, rfl⟩ := okPair h
          exact hmid
    · -- evalInstrs
      intro l last ctx store v s2 h
      match l with
      | [] =>
        obtain ⟨rfl, rfl⟩ := okPair h
        exact storeOK_refl _ _
      | i :: rest =>
        simp only [evalInstrs] at h
        split at h
        · exact Except.noConfusion h
        next v1 s1 heq =>
          exact storeOK_trans (ihNode i ctx store v1 s1 heq) (ihInstrs rest v1 ctx s1 v s2 h)
    · -- evalIf
      intro cs bs els ctx store v s2 h
      match cs, bs with
      | c :: cs2, b :: bs2 =>
        simp only [evalIf] at h
        split at h
        · exact Except.noConfusion h
        next cv s1 heq =>
          have h1 := ihNode c ctx store cv s1 heq
          split at h
          · exact storeOK_trans h1 (ihNode b ctx s1 v s2 h)
          · exact storeOK_trans h1 (ihIf cs2 bs2 els ctx s1 v s2 h)
      | [], b :: bs2 =>
        match els with
        | some e => exact ihNode e ctx store v s2 h
        | none => obtain ⟨rfl, rfl⟩ := okPair h; exact storeOK_refl _ _
      | c :: cs2, [] =>
        match els with
        | some e => exact ihNode e ctx store v s2 h
        | none => obtain ⟨rfl, rfl⟩ := okPair h; exact storeOK_refl _ _
      | [], [] =>
        match els with
        | some e => exact ihNode e ctx store v s2 h
        | none => obtain ⟨rfl, rfl⟩ := okPair h; exact storeOK_refl _ _
    · -- evalWhile
      intro c b r ctx store v s2 h
      simp only [evalWhile] at h
      split at h
      · exact Except.noConfusion h
      next cv s1 heq =>
        have h1 := ihNode c ctx store cv s1 heq
        split at h
        · -- truthy: body then loop
          split at h
          · exact Except.noConfusion h
          next bv s1b heq2 =>
            exact storeOK_trans h1 (storeOK_trans (ihNode b ctx s1 bv s1b heq2)
              (ihWhile c b bv ctx s1b v s2 h))
        · obtain ⟨rfl, rfl⟩ := okPair h
          exact h1
    · -- evalAssignChain
      intro ts os rhsv ctx store v s2 h
      match ts, os with
      | t :: ts2, o :: os2 =>
        simp only [evalAssignChain] at h
        split at h
        · exact Except.noConfusion h
        next v1 s1 heq =>
          exact storeOK_trans (ihPerform t rhsv o ctx store v1 s1 heq)
            (ihAssign ts2 os2 (.inr v1) ctx s1 v s2 h)
      | [], _ =>
        match rhsv with
        | .inr v1 => obtain ⟨rfl, rfl⟩ := okPair h; exact storeOK_refl _ _
        | .inl _ => exact Except.noConfusion h
      | t :: ts2, [] =>
        match rhsv with
        | .inr v1 => obtain ⟨rfl, rfl⟩ := okPair h; exact storeOK_refl _ _
        | .inl _ => exact Except.noConfusion h
    · -- performAssignment
      intro t rhsv o ctx store v s2 h
      match t with
      | .identifier name =>
        simp only [performAssignment] at h
        split at h
        · exact Except.noConfusion h
        next nv s1 heq =>
          have h1 := ihIfNot rhsv ctx store nv s1 heq
          split at h
          · obtain ⟨rfl, rfl⟩ := okPair h
            exact storeOK_envSet h1 name nv
          · obtain ⟨rfl, rfl⟩ := okPair h
            exact storeOK_envSet h1 name nv
      | .indexation p g => exact Except.noConfusion h
      | .memberAccess p ns => exact Except.noConfusion h
      | .listLit es => exact Except.noConfusion h
      | .scope a => exact Except.noConfusion h
      | .ifElse a b c => exact Except.noConfusion h
      | .whileLoop a b => exact Except.noConfusion h
      | .assignment a b => exact Except.noConfusion h
      | .operator a b => exact Except.noConfusion h
      | .funcCall a b => exact Except.noConfusion h
      | .comparison a b => exact Except.noConfusion h
      | .leftPoly a b => exact Except.noConfusion h
      | .unary a b => exact Except.noConfusion h
      | .functionDecl a b => exact Except.noConfusion h
      | .number a => exact Except.noConfusion h
      | .floatLit a => exact Except.noConfusion h
      | .boolean a => exact Except.noConfusion h
      | .nullLit => exact Except.noConfusion h
      | .stringLit a => exact Except.noConfusion h
    · -- evalIfNot
      intro rhsv ctx store v s2 h
      match rhsv with
      | .inl n => exact ihNode n ctx store v s2 h
      | .inr v1 => obtain ⟨rfl, rfl⟩ := okPair h; exact storeOK_refl _ _
    · -- evalOrChain
      intro l ctx store v s2 h
      match l with
      | [] => exact Except.noConfusion h
      | [last] => exact ihNode last ctx store v s2 h
      | op :: o2 :: rest =>
        simp only [evalOrChain] at h
        split at h
        · exact Except.noConfusion h
        next r1 s1 heq =>
          have h1 := ihNode op ctx store r1 s1 heq
          split at h
          · obtain ⟨rfl, rfl⟩ := okPair h
            exact h1
          · exact storeOK_trans h1 (ihOr (o2 :: rest) ctx s1 v s2 h)
    · -- evalAndChain
      intro l all ctx store v s2 h
      match l with
      | [] =>
        simp only [evalAndChain] at h
        split at h
        next last heq => exact ihNode last ctx store v s2 h
        next heq => exact Except.noConfusion h
      | op :: rest =>
        simp only [evalAndChain] at h
        split at h
        · exact Except.noConfusion h
        next r1 s1 heq =>
          have h1 := ihNode op ctx store r1 s1 heq
          split at h
          · obtain ⟨rfl, rfl⟩ := okPair h
            exact h1
          · exact storeOK_trans h1 (ihAnd rest all ctx s1 v s2 h)
    · -- evalPowChain
      intro l acc ctx store v s2 h
      match l with
      | [] => obtain ⟨rfl, rfl⟩ := okPair h; exact storeOK_refl _ _
      | op :: rest =>
        simp only [evalPowChain] at h
        split at h
        · exact Except.noConfusion h
        next v1 s1 heq =>
          split at h
          · exact Except.noConfusion h
          next r2 heq2 =>
            exact storeOK_trans (ihNode op ctx store v1 s1 heq) (ihPow rest r2 ctx s1 v s2 h)
    · -- evalFoldChain
      intro tag acc l ctx store v s2 h
      match l with
      | [] => obtain ⟨rfl, rfl⟩ := okPair h; exact storeOK_refl _ _
      | op :: rest =>
        simp only [evalFoldChain] at h
        split at h
        · exact Except.noConfusion h
        next v1 s1 heq =>
          split at h
          · exact Except.noConfusion h
          next r2 heq2 =>
            exact storeOK_trans (ihNode op ctx store v1 s1 heq) (ihFold tag r2 rest ctx s1 v s2 h)
    · -- evalCallGroups
      intro v0 gs ctx store v s2 h
      match gs with
      | [] => obtain ⟨rfl, rfl⟩ := okPair h; exact storeOK_refl _ _
      | g :: gs2 =>
        match v0 with
        | .closure ps body rf =>
          simp only [evalCallGroups] at h
          split at h
          · exact Except.noConfusion h
          next args s1 heq =>
            split at h
            · exact Except.noConfusion h
            next rv s1b heq2 =>
              exact storeOK_trans (ihArgs g ctx store args s1 heq)
                (storeOK_trans (storeOK_of_storeExt (ihClosure ps body rf args s1 rv s1b heq2) ctx)
                  (ihCall rv gs2 ctx s1b v s2 h))
        | .null => exact Except.noConfusion h
        | .bool a => exact Except.noConfusion h
        | .int a => exact Except.noConfusion h
        | .float a => exact Except.noConfusion h
        | .str a => exact Except.noConfusion h
        | .list a => exact Except.noConfusion h
    · -- evalArgs
      intro l ctx store vs s2 h
      match l with
      | [] =>
        obtain ⟨rfl, rfl⟩ := okPair h
        exact storeOK_refl _ _
      | a :: rest =>
        simp only [evalArgs] at h
        split at h
        · exact Except.noConfusion h
        next v1 s1 heq =>
          split at h
          · exact Except.noConfusion h
          next vs2 s1b heq2 =>
            obtain ⟨rfl, rfl⟩ := okPair h
            exact storeOK_trans (ihNode a ctx store v1 s1 heq) (ihArgs rest ctx s1 vs2 s1b heq2)
    · -- callClosure
      intro ps body rf args store v s2 h
      simp only [callClosure] at h
      split at h
      · exact Except.noConfusion h
      · split at h
        · exact Except.noConfusion h
        next r2 hne =>
          exact storeExt_of_call (ihNode body store.length
            (store ++ [bindParams (storeGet store rf) ps args]) v s2 h)
    · -- evalCmpChain
      intro ops operands res ctx store v s2 h
      match ops, operands with
      | op :: ops2, a :: b :: rest =>
        simp only [evalCmpChain] at h
        split at h
        · exact Except.noConfusion h
        next lhs s1 heq =>
          split at h
          · exact Except.noConfusion h
          next rhs s1b heq2 =>
            have h1 := storeOK_trans (ihNode a ctx store lhs s1 heq) (ihNode b ctx s1 rhs s1b heq2)
            split at h
            · exact Except.noConfusion h
            next r2 heq3 =>
              split at h
              · obtain ⟨rfl, rfl⟩ := okPair h
                exact h1
              · exact storeOK_trans h1 (ihCmp ops2 (b :: rest) r2 ctx s1b v s2 h)
      | [], _ => obtain ⟨rfl, rfl⟩ := okPair h; exact storeOK_refl _ _
      | op :: ops2, [] => obtain ⟨rfl, rfl⟩ := okPair h; exact storeOK_refl _ _
      | op :: ops2, [a] => obtain ⟨rfl, rfl⟩ := okPair h; exact storeOK_refl _ _
    · -- evalIndexChain
      intro v0 l ctx store v s2 h
      match l with
      | [] => obtain ⟨rfl, rfl⟩ := okPair h; exact storeOK_refl _ _
      | ix :: rest =>
        simp only [evalIndexChain] at h
        split at h
        · exact Except.noConfusion h
        next i1 s1 heq =>
          split at h
          · exact Except.noConfusion h
          next v2 heq2 =>
            exact storeOK_trans (ihNode ix ctx store i1 s1 heq) (ihIndex v2 rest ctx s1 v s2 h)
    · -- evalLeftPoly
      intro ops opnds lhs ctx store v s2 h
      match ops, opnds with
      | op :: ops2, nv :: nvs =>
        simp only [evalLeftPoly] at h
        split at h
        · exact Except.noConfusion h
        next rhs s1 heq =>
          split at h
          · exact Except.noConfusion h
          next v1 heq2 =>
            exact storeOK_trans (ihNode nv ctx store rhs s1 heq) (ihLP ops2 nvs v1 ctx s1 v s2 h)
      | [], _ => obtain ⟨rfl, rfl⟩ := okPair h; exact storeOK_refl _ _
      | op :: ops2, [] => obtain ⟨rfl, rfl⟩ := okPair h; exact storeOK_refl _ _

/-- C4: when a scope is evaluated with variable flushing enabled
(flush_variables = True, the ScopeNode.evaluate default), the environment
dict referenced by ctx ends with exactly the key list it had on entry:
every identifier first introduced inside the scope is deleted on exit,
and every identifier that existed on entry is still bound and holds the
value it had right after the scope's instructions ran (the value the
instructions last assigned; no entry value is restored). -/
theorem C4_theorem (f : Nat) (instrs : List Node) (ctx : Nat) (store : Store)
    (v : Value) (store2 : Store) (hctx : ctx < store.length)
    (h : evalScope (f+1) instrs true ctx store = .ok (v, store2)) :
    envKeys (storeGet store2 ctx) = envKeys (storeGet store ctx) ∧
    (∃ s1, evalInstrs f instrs .null ctx store = .ok (v, s1) ∧
      ∀ key v0, envGet (storeGet store ctx) key = some v0 →
        envGet (storeGet store2 ctx) key = envGet (storeGet s1 ctx) key) ∧
    (∀ key, envGet (storeGet store ctx) key = none →
      envGet (storeGet store2 ctx) key = none) := by
  simp only [evalScope] at h
  split at h
  · exact Except.noConfusion h
  next last s1 heq =>
    replace h : (Except.ok (last, storeSet s1 ctx
        ((storeGet s1 ctx).filter
          (fun kv => (envKeys (storeGet store ctx)).contains kv.1))) :
        Except Err (Value × Store)) = .ok (v, store2) := h
    obtain ⟨rfl, rfl⟩ := okPair h
    have hOK := (evalStoreOK f).2.2.1 instrs .null ctx store last s1 heq
    have hEnv : EnvExt (storeGet store ctx) (storeGet s1 ctx) := hOK.2.2
    have hctx1 : ctx < s1.length := Nat.lt_of_lt_of_le hctx hOK.1
    have hset := storeGet_set_self
      ((storeGet s1 ctx).filter
        (fun kv => (envKeys (storeGet store ctx)).contains kv.1)) hctx1
    rw [hset, envExt_flush hEnv]
    refine ⟨?_, ⟨s1, heq, ?_⟩, ?_⟩
    · exact hEnv.1
    · intro key v0 hkey
      apply envGet_take_of_mem hEnv
      by_contra hnone
      rw [(envGet_eq_none_iff _ _).mpr hnone] at hkey
      exact Option.noConfusion hkey
    · intro key hkey
      apply (envGet_eq_none_iff _ _).mpr
      intro hmem
      have hmem2 : key ∈ envKeys (storeGet store ctx) := by
        rw [envKeys, ← hEnv.1]
        exact hmem
      exact (envGet_eq_none_iff _ _).mp hkey hmem2

theorem C4_witness :
    0 < ([[("x", Value.int 1)]] : Store).length ∧
    (envKeys (storeGet [[("x", Value.int 5)]] 0) =
        envKeys (storeGet [[("x", Value.int 1)]] 0) ∧
      (∃ s1, evalInstrs 9
          [Node.assignment [Node.identifier "y", Node.number 2] [false],
           Node.assignment [Node.identifier "x", Node.number 5] [false]]
          .null 0 [[("x", Value.int 1)]] = .ok (.int 5, s1) ∧
        ∀ key v0, envGet (storeGet [[("x", Value.int 1)]] 0) key = some v0 →
          envGet (storeGet [[("x", Value.int 5)]] 0) key =
            envGet (storeGet s1 0) key) ∧
      (∀ key, envGet (storeGet [[("x", Value.int 1)]] 0) key = none →
        envGet (storeGet [[("x", Value.int 5)]] 0) key = none)) :=
  ⟨by decide,
    C4_theorem 9
      [Node.assignment [Node.identifier "y", Node.number 2] [false],
       Node.assignment [Node.identifier "x", Node.number 5] [false]]
      0 [[("x", Value.int 1)]] (.int 5) [[("x", Value.int 5)]]
      (by decide) (by rfl)⟩
